import Mathlib

/-!
# Verification of the gh-repo-stats job-orchestration core

Shallow embedding of `src/ui/services/github_stats.py`: the job registry,
the job record, the stderr progress parser (the three regular-expression
recognizers of `run_analysis.read_stderr`), the terminal transitions of
`run_analysis`, `cancel_job`, and the CSV ingestion/serialization pair
`parse_csv_results` / `results_to_csv`.

Python machine details modelled exactly where they matter:
* `int((processed / total) * 100)` is evaluated in IEEE-754 double
  precision; we model the two correctly-rounded operations (true division
  of two integers, multiplication by 100) by exact rational rounding to a
  53-bit significand with round-half-to-even, followed by truncation.
* The three `re` patterns are compiled to explicit character-list matchers
  reproducing Python's leftmost search with greedy backtracking semantics
  (validated against CPython on the relevant input families).
-/

namespace GhRepoStats

/-! ## Character and string utilities (Python semantics, ASCII range) -/

/-- Python `\s` / `str.strip` whitespace, ASCII range (the diagnostic
lines of the external tool are ASCII). -/
def isPySpace (c : Char) : Bool :=
  c = ' ' ∨ c = '\t' ∨ c = '\n' ∨ c = '\r' ∨ c = '\x0b' ∨ c = '\x0c'

def isDigitChar (c : Char) : Bool := 48 ≤ c.toNat ∧ c.toNat ≤ 57

def isQuoteChar (c : Char) : Bool := c = '"' ∨ c = '\''

/-- ASCII lower-casing, models `re.IGNORECASE` folding and `str.lower`
on the ASCII inputs that occur here. -/
def lowerAscii (c : Char) : Char :=
  if 'A' ≤ c ∧ c ≤ 'Z' then Char.ofNat (c.toNat + 32) else c

def lowerStr (s : String) : String := String.mk (s.data.map lowerAscii)

/-- `str.strip()` on a list of characters. -/
def stripChars (cs : List Char) : List Char :=
  ((cs.dropWhile isPySpace).reverse.dropWhile isPySpace).reverse

/-- `str.strip()`. -/
def pyStrip (s : String) : String := String.mk (stripChars s.data)

/-- Digits to the number they denote (Python `int` of a digit string). -/
def natOfDigits (cs : List Char) : Nat :=
  cs.foldl (fun acc c => acc * 10 + (c.toNat - '0'.toNat)) 0

/-- Decimal rendering, structural recursion on a fuel bound so the
kernel can evaluate it (`fuel` is always taken large enough). -/
def natDecimalFuel : Nat → Nat → List Char
  | 0, _ => []
  | fuel + 1, n =>
    if n < 10 then [Char.ofNat ('0'.toNat + n)]
    else natDecimalFuel fuel (n / 10) ++ [Char.ofNat ('0'.toNat + n % 10)]

/-- Standard decimal rendering of a natural number (Python `str(int)`
for non-negative values). -/
def natDecimal (n : Nat) : List Char := natDecimalFuel (n + 1) n

/-- Python `str(int)` for arbitrary integers. -/
def intDecimal (n : Int) : List Char :=
  if n < 0 then '-' :: natDecimal n.natAbs else natDecimal n.natAbs

/-- The sign-and-digits body of Python `int(str)` after stripping. -/
def pyIntOfBody : List Char → Option Int
  | [] => none
  | c :: rest =>
    if c = '-' then
      if rest ≠ [] ∧ rest.all isDigitChar then some (-(natOfDigits rest : Int)) else none
    else if c = '+' then
      if rest ≠ [] ∧ rest.all isDigitChar then some (natOfDigits rest) else none
    else
      if (c :: rest).all isDigitChar then some (natOfDigits (c :: rest)) else none

/-- Python `int(str)`: optional surrounding whitespace, optional sign,
then a non-empty run of digits (digit-group separators do not occur in
the inputs modelled here).  `none` models a raised `ValueError`. -/
def pyIntOfChars (cs : List Char) : Option Int :=
  pyIntOfBody (stripChars cs)

/-- Split a character list on a separator character (the n separators
yield n+1 parts). -/
def splitOnChar (sep : Char) : List Char → List (List Char)
  | [] => [[]]
  | c :: rest =>
    if c = sep then [] :: splitOnChar sep rest
    else
      match splitOnChar sep rest with
      | p :: ps => (c :: p) :: ps
      | [] => [[c]]

/-- Interleave a separator character between parts (inverse of
`splitOnChar` for separator-free parts). -/
def joinWithChar (sep : Char) : List (List Char) → List Char
  | [] => []
  | [p] => p
  | p :: rest => p ++ sep :: joinWithChar sep rest

/-! ## Exact model of the IEEE-754 double computation
`int((p / t) * 100)`

A finite positive double is `m * 2^(e-52)` with `2^52 ≤ m ≤ 2^53`
(we allow the unnormalized `m = 2^53` after a round-up; only the value
matters).  `flNat a b` rounds the positive rational `a/b` to the nearest
double, ties to even — exactly CPython's correctly-rounded `int / int`
true division, and (after re-expressing the product as a fraction)
IEEE multiplication. -/

/-- Round `A / B` to the nearest integer, ties to even. -/
def rheDiv (A B : Nat) : Nat :=
  if 2 * (A % B) < B then A / B
  else if B < 2 * (A % B) then A / B + 1
  else if (A / B) % 2 = 0 then A / B else A / B + 1

/-- Base-2 logarithm by structural recursion on a fuel bound
(kernel-evaluable; `log2N` supplies sufficient fuel). -/
def log2Fuel : Nat → Nat → Nat
  | 0, _ => 0
  | fuel + 1, n => if 2 ≤ n then log2Fuel fuel (n / 2) + 1 else 0

/-- `⌊log₂ n⌋` (0 at 0). -/
def log2N (n : Nat) : Nat := log2Fuel n n

/-- `2^k ≤ a/b` for an integer `k` (with `a b : Nat`). -/
def expLe (a b : Nat) (k : Int) : Bool :=
  if 0 ≤ k then b * 2 ^ k.toNat ≤ a else b ≤ a * 2 ^ (-k).toNat

/-- The unique `k` with `2^k ≤ a/b < 2^(k+1)` (for `0 < a`, `0 < b`). -/
def findExp (a b : Nat) : Int :=
  if expLe a b ((log2N a : Int) - (log2N b : Int)) then (log2N a : Int) - (log2N b : Int)
  else (log2N a : Int) - (log2N b : Int) - 1

/-- Numerator of `a/b` rescaled so the quotient lies in `[2^52, 2^53)`. -/
def flA (a b : Nat) : Nat :=
  if 52 ≤ findExp a b then a else a * 2 ^ ((52 : Int) - findExp a b).toNat

/-- Denominator of `a/b` rescaled so the quotient lies in `[2^52, 2^53)`. -/
def flB (a b : Nat) : Nat :=
  if 52 ≤ findExp a b then b * 2 ^ (findExp a b - 52).toNat else b

/-- Significand and exponent of the double nearest to `a/b` (the
significand may round up to `2^53`; only the value matters). -/
def flNat (a b : Nat) : Nat × Int := (rheDiv (flA a b) (flB a b), findExp a b)

/-- Rational value of a significand/exponent pair. -/
def fpVal (f : Nat × Int) : ℚ := (f.1 : ℚ) * (2 : ℚ) ^ (f.2 - 52)

/-- Numerator of the exact product `100 * value-of-f` as a fraction. -/
def pct2Num (f : Nat × Int) : Nat :=
  if 52 ≤ f.2 then 100 * f.1 * 2 ^ (f.2 - 52).toNat else 100 * f.1

/-- Denominator of the exact product `100 * value-of-f` as a fraction. -/
def pct2Den (f : Nat × Int) : Nat :=
  if 52 ≤ f.2 then 1 else 2 ^ ((52 : Int) - f.2).toNat

/-- Truncation toward zero (Python `int()`) of a non-negative double. -/
def truncFp (f : Nat × Int) : Nat :=
  if 52 ≤ f.2 then f.1 * 2 ^ (f.2 - 52).toNat else f.1 / 2 ^ ((52 : Int) - f.2).toNat

/-- Models the Python expression
`int((p / t) * 100)` for `p ≥ 0`, `t > 0`: correctly-rounded double
division of the two integers, correctly-rounded double multiplication
by 100, truncation toward zero.  This is exact for every ratio inside
the normal double range (Python raises `OverflowError` past `~2^1024`,
far beyond anything a job can reach). -/
def pyPct (p t : Nat) : Nat :=
  if p = 0 then 0
  else truncFp (flNat (pct2Num (flNat p t)) (pct2Den (flNat p t)))

/-! ## The three stderr recognizers of `run_analysis.read_stderr`

`repo_pattern    = Processing\s+(?:repo\s+)?(\d+)\s*/\s*(\d+)(?:\s*:\s*(.+))?`
`total_pattern   = Found\s+(\d+)\s+repositor`
`repo_name_pattern = Analyzing\s+(?:repository\s+)?["\']?([^"\']+)["\']?`
all compiled with `re.IGNORECASE` and applied with `.search` (leftmost
match; greedy quantifiers with backtracking).  The matchers below
reproduce that semantics on character lists. -/

/-- Case-insensitive literal prefix match; returns the remainder. -/
def matchLit : List Char → List Char → Option (List Char)
  | [], cs => some cs
  | _, [] => none
  | l :: ls, c :: cs => if lowerAscii c = lowerAscii l then matchLit ls cs else none

/-- `repo_pattern` anchored at the head of `cs`; on success the two
numeric groups and the optional raw text of group 3.  Greedy runs
(`\s+`, `\d+`, `\s*`) never need backtracking here except inside
`(?:\s*:\s*(.+))?`, where an all-whitespace tail makes `\s*` give one
character back to `(.+)`. -/
def matchProcessingAt (cs : List Char) : Option (Nat × Nat × Option (List Char)) :=
  match matchLit "processing".data cs with
  | none => none
  | some r1 =>
    let (ws1, r2) := r1.span isPySpace
    if ws1.isEmpty then none else
    let r3 :=
      match matchLit "repo".data r2 with
      | some rr =>
        let (ws2, rr2) := rr.span isPySpace
        if ws2.isEmpty then r2 else rr2
      | none => r2
    let (d1, r4) := r3.span isDigitChar
    if d1.isEmpty then none else
    let (_, r5) := r4.span isPySpace
    match r5 with
    | '/' :: r6 =>
      let (_, r7) := r6.span isPySpace
      let (d2, r8) := r7.span isDigitChar
      if d2.isEmpty then none else
      let (_, r9) := r8.span isPySpace
      let g3 : Option (List Char) :=
        match r9 with
        | ':' :: tail =>
          let (ws4, rest) := tail.span isPySpace
          if rest.isEmpty then
            match ws4.reverse with
            | c :: _ => some [c]
            | [] => none
          else some rest
        | _ => none
      some (natOfDigits d1, natOfDigits d2, g3)
    | _ => none

/-- `re.search` scan for `repo_pattern`. -/
def searchProcessing : List Char → Option (Nat × Nat × Option (List Char))
  | [] => none
  | c :: rest =>
    match matchProcessingAt (c :: rest) with
    | some r => some r
    | none => searchProcessing rest

/-- `total_pattern` anchored at the head of `cs`. -/
def matchFoundAt (cs : List Char) : Option Nat :=
  match matchLit "found".data cs with
  | none => none
  | some r1 =>
    let (ws1, r2) := r1.span isPySpace
    if ws1.isEmpty then none else
    let (d1, r3) := r2.span isDigitChar
    if d1.isEmpty then none else
    let (ws2, r4) := r3.span isPySpace
    if ws2.isEmpty then none else
    match matchLit "repositor".data r4 with
    | some _ => some (natOfDigits d1)
    | none => none

/-- `re.search` scan for `total_pattern`. -/
def searchFound : List Char → Option Nat
  | [] => none
  | c :: rest =>
    match matchFoundAt (c :: rest) with
    | some r => some r
    | none => searchFound rest

/-- The trailing `["\']?([^"\']+)["\']?` of `repo_name_pattern`:
optional opening quote (preferred when present), a non-empty run of
non-quote characters as the group, optional closing quote. -/
def quotePart (cs : List Char) : Option (List Char) :=
  match cs with
  | [] => none
  | c :: rest =>
    if isQuoteChar c then
      let (g, _) := rest.span (fun d => ¬ isQuoteChar d)
      if g.isEmpty then none else some g
    else
      let (g, _) := cs.span (fun d => ¬ isQuoteChar d)
      some g

/-- `(?:repository\s+)?["\']?([^"\']+)["\']?` with Python's backtracking
order: take `repository\s+` greedily (its `\s+` giving back one final
whitespace character if the quoted part cannot otherwise match), then
fall back to not taking the optional group at all. -/
def contAnalyzing (x : List Char) : Option (List Char) :=
  match matchLit "repository".data x with
  | some rr =>
    let (ws2, rr2) := rr.span isPySpace
    if ws2.isEmpty then quotePart x
    else
      match quotePart rr2 with
      | some g => some g
      | none =>
        match ws2.reverse with
        | c :: _ :: _ => some [c]
        | _ => quotePart x
  | none => quotePart x

/-- `repo_name_pattern` anchored at the head of `cs`; the outer `\s+`
likewise gives back its final whitespace character when needed. -/
def matchAnalyzingAt (cs : List Char) : Option (List Char) :=
  match matchLit "analyzing".data cs with
  | none => none
  | some r1 =>
    let (ws1, r2) := r1.span isPySpace
    if ws1.isEmpty then none
    else
      match contAnalyzing r2 with
      | some g => some g
      | none =>
        match ws1.reverse with
        | c :: _ :: _ => some [c]
        | _ => none

/-- `re.search` scan for `repo_name_pattern`. -/
def searchAnalyzing : List Char → Option (List Char)
  | [] => none
  | c :: rest =>
    match matchAnalyzingAt (c :: rest) with
    | some r => some r
    | none => searchAnalyzing rest

/-! ## Data model (`JobStatus`, `AnalysisConfig`, `AnalysisJob`) -/

/-- `class JobStatus(str, Enum)`. -/
inductive JobStatus
  | pending
  | running
  | completed
  | failed
deriving DecidableEq, Repr

/-- The `.value` string of the enum member. -/
def JobStatus.value : JobStatus → String
  | .pending => "pending"
  | .running => "running"
  | .completed => "completed"
  | .failed => "failed"

/-- A parsed CSV cell: fresh cells are strings, `parse_csv_results`
coerces recognized fields to int/bool; `vNone` is Python `None`
(the `DictReader` restval for a short row). -/
inductive Value
  | vStr (s : String)
  | vInt (n : Int)
  | vBool (b : Bool)
  | vNone
deriving DecidableEq, Repr

/-- One result record: an insertion-ordered dict (keys are unique). -/
abbrev ResultRow := List (String × Value)

deriving instance DecidableEq for Except

/-- `@dataclass AnalysisConfig`. -/
structure AnalysisConfig where
  organizations : List String := []
  repo_list : List String := []
  hostname : String := "github.com"
  output_format : String := "CSV"
  repo_page_size : Nat := 10
  extra_page_size : Nat := 50
  token_type : String := "user"
  analyze_repo_conflicts : Bool := false
  analyze_team_conflicts : Bool := false
  token : Option String := none
deriving DecidableEq, Repr

/-- `@dataclass AnalysisJob`.  Timestamps are abstract ticks
(`datetime.min` is tick 0; `datetime.now()` is always positive); the
process handle is modelled by its presence. -/
structure AnalysisJob where
  job_id : String
  status : JobStatus := .pending
  config : AnalysisConfig := {}
  progress : Nat := 0
  message : String := ""
  results : List ResultRow := []
  errors : List String := []
  started_at : Option Nat := none
  completed_at : Option Nat := none
  output_file : Option String := none
  current_repo : Option String := none
  total_repos : Nat := 0
  processed_repos : Nat := 0
  output_lines : List String := []
  _process : Option Unit := none
  cancelled : Bool := false
deriving DecidableEq, Repr

/-! ## Job registry (`_jobs` dict; insertion-ordered association list) -/

abbrev Registry := List (String × AnalysisJob)

/-- `get_job`. -/
def get_job (jobs : Registry) (job_id : String) : Option AnalysisJob :=
  (jobs.find? (fun p => p.1 = job_id)).map Prod.snd

/-- `create_job` (the random `job_id` is a parameter). -/
def create_job (jobs : Registry) (job_id : String) (config : AnalysisConfig) :
    AnalysisJob × Registry :=
  let job : AnalysisJob := { job_id := job_id, config := config, status := .pending }
  (job, jobs ++ [(job_id, job)])

/-- The sort key of `get_all_jobs`: `j.started_at or datetime.min`. -/
def jobSortKey (j : AnalysisJob) : Nat := j.started_at.getD 0

/-- `get_all_jobs`: `list(_jobs.values())` sorted stably by
`started_at or datetime.min`, descending (`list.sort(key=..., reverse=True)`
is a stable sort; any stable sort produces the identical list, so we use
stable insertion sort). -/
def get_all_jobs (jobs : Registry) : List AnalysisJob :=
  List.insertionSort (fun a b => jobSortKey b ≤ jobSortKey a) (jobs.map Prod.snd)

/-- `get_recent_jobs`. -/
def get_recent_jobs (jobs : Registry) (limit : Nat := 10) : List AnalysisJob :=
  (get_all_jobs jobs).take limit

/-- In-place mutation of the record stored under `job_id`. -/
def setJob : Registry → String → AnalysisJob → Registry
  | [], _, _ => []
  | (k, v) :: rest, job_id, job =>
    if k = job_id then (k, job) :: rest else (k, v) :: setJob rest job_id job

/-- `cancel_job`.  `termError` is the outcome of the process-termination
attempt (`some e` models an unexpected exception from `terminate`;
`ProcessLookupError` and the graceful/forceful paths all proceed
normally and are `none`).  Returns the `(success, message)` pair and the
registry afterwards. -/
def cancel_job (jobs : Registry) (job_id : String) (termError : Option String) :
    (Bool × String) × Registry :=
  match get_job jobs job_id with
  | none => ((false, "Job not found"), jobs)
  | some job =>
    if job.status ≠ JobStatus.running then
      ((false, "Job is not running (current status: " ++ job.status.value ++ ")"), jobs)
    else
      let job' := { job with cancelled := true, message := "Cancelling..." }
      let jobs' := setJob jobs job_id job'
      if job'._process.isSome then
        match termError with
        | some e => ((false, "Error terminating process: " ++ e), jobs')
        | none => ((true, "Job cancellation requested"), jobs')
      else ((true, "Job cancellation requested"), jobs')

/-! ## Stream reader: one diagnostic line (`read_stderr` loop body) -/

/-- Append to `output_lines`, keeping the last 500 entries. -/
def pushBounded (lines : List String) (l : String) : List String :=
  let ls := lines ++ [l]
  if 500 < ls.length then ls.drop (ls.length - 500) else ls

/-- `job.current_repo or 'fetching...'`. -/
def orFetching : Option String → String
  | some s => if s = "" then "fetching..." else s
  | none => "fetching..."

/-- The `repo_pattern` branch (first recognizer). -/
def applyIndexed (job : AnalysisJob) (p t : Nat) (g3 : Option (List Char)) : AnalysisJob :=
  let job := { job with processed_repos := p, total_repos := t }
  let job :=
    match g3 with
    | some cs => { job with current_repo := some (String.mk (stripChars cs)) }
    | none => job
  let job :=
    if 0 < job.total_repos then
      { job with progress := pyPct job.processed_repos job.total_repos }
    else job
  { job with
    message := "Processing " ++ String.mk (natDecimal p) ++ "/" ++
      String.mk (natDecimal t) ++ ": " ++ orFetching job.current_repo }

/-- The `total_pattern` branch (second recognizer). -/
def applyFound (job : AnalysisJob) (t : Nat) : AnalysisJob :=
  { job with
    total_repos := t,
    message := "Found " ++ String.mk (natDecimal t) ++ " repositories to analyze..." }

/-- The `repo_name_pattern` branch (third recognizer). -/
def applyAnalyzing (job : AnalysisJob) (cs : List Char) : AnalysisJob :=
  let job := { job with
               current_repo := some (String.mk cs),
               processed_repos := job.processed_repos + 1 }
  let job :=
    if 0 < job.total_repos then
      { job with progress := pyPct job.processed_repos job.total_repos }
    else job
  { job with message := "Analyzing: " ++ String.mk cs }

/-- Lines 334–338: retain a non-empty decoded line in the ring
buffer. -/
def bufferLine (job : AnalysisJob) (decoded : String) : AnalysisJob :=
  if decoded ≠ "" then { job with output_lines := pushBounded job.output_lines decoded }
  else job

/-- One iteration of the `read_stderr` loop on a decoded line: strip,
retain in the ring buffer when non-empty, then try the three
recognizers in order — `continue` after the first match. -/
def processLine (job : AnalysisJob) (line : String) : AnalysisJob :=
  match searchProcessing (pyStrip line).data with
  | some (p, t, g3) => applyIndexed (bufferLine job (pyStrip line)) p t g3
  | none =>
    match searchFound (pyStrip line).data with
    | some t => applyFound (bufferLine job (pyStrip line)) t
    | none =>
      match searchAnalyzing (pyStrip line).data with
      | some cs => applyAnalyzing (bufferLine job (pyStrip line)) cs
      | none => bufferLine job (pyStrip line)

/-- A whole stderr line sequence. -/
def processLines (job : AnalysisJob) (lines : List String) : AnalysisJob :=
  lines.foldl processLine job

/-- Entry of `run_analysis` (lines 239–241 and 254–257): mark Running,
set `started_at`, and pre-seed `total_repos` from an explicit repo
list. -/
def startRun (job : AnalysisJob) (now : Nat) : AnalysisJob :=
  let job := { job with
               status := JobStatus.running,
               started_at := some now,
               message := "Starting analysis..." }
  if job.config.repo_list ≠ [] then
    { job with total_repos := job.config.repo_list.length }
  else job

/-! ## Results ingestion (`parse_csv_results`) and serialization
(`results_to_csv`)

The `csv` module's lexing layer is modelled for fields free of the
delimiter, quote and line-break characters — the only fields occurring
in the artifacts and records the claims quantify over, for which
`QUOTE_MINIMAL` writes fields verbatim and the reader is plain
splitting.  `DictReader` semantics on short rows (missing cells become
`None`) is modelled exactly; extra cells beyond the header (collected
under the `None` restkey, never consulted afterwards) are dropped. -/

/-- Drop a trailing `'\r'` (CRLF row terminators). -/
def dropTrailingCR (cs : List Char) : List Char :=
  match cs.reverse with
  | '\r' :: rest => rest.reverse
  | _ => cs

/-- Rows of the artifact: line breaks split rows, blank rows are
skipped (as `DictReader` does). -/
def csvSplitLines (content : String) : List (List Char) :=
  ((splitOnChar '\n' content.data).map dropTrailingCR).filter (fun l => ¬ l.isEmpty)

/-- `dict(zip(fieldnames, row))` with `restval=None` for missing
cells. -/
def zipRow : List String → List String → ResultRow
  | [], _ => []
  | f :: fs, [] => (f, Value.vNone) :: zipRow fs []
  | f :: fs, c :: cs => (f, Value.vStr c) :: zipRow fs cs

/-- The 17 numeric fields of `parse_csv_results`. -/
def numeric_fields : List String :=
  ["Repo_Size(mb)", "Record_Count", "Collaborator_Count",
   "Protected_Branch_Count", "PR_Review_Count", "Milestone_Count",
   "Issue_Count", "PR_Count", "PR_Review_Comment_Count",
   "Commit_Comment_Count", "Issue_Comment_Count", "Issue_Event_Count",
   "Release_Count", "Project_Count", "Branch_Count", "Tag_Count",
   "Discussion_Count"]

/-- The 4 boolean fields of `parse_csv_results`. -/
def bool_fields : List String := ["Is_Empty", "isFork", "isArchived", "Has_Wiki"]

/-- Python truthiness of a cell value. -/
def pyTruthy : Value → Bool
  | .vStr s => s ≠ ""
  | .vInt n => n ≠ 0
  | .vBool b => b
  | .vNone => false

/-- `row[field]` on the dict. -/
def rowGet (row : ResultRow) (f : String) : Option Value :=
  (row.find? (fun p => p.1 = f)).map Prod.snd

/-- `row[field] = v` for a present key (in-place, order preserved). -/
def rowSet : ResultRow → String → Value → ResultRow
  | [], _, _ => []
  | (k, v) :: rest, f, nv =>
    if k = f then (k, nv) :: rest else (k, v) :: rowSet rest f nv

/-- The key list of a row dict, in insertion order. -/
def rowKeys (row : ResultRow) : List String := row.map Prod.fst

/-- Python `int(value)` for the values reachable in the numeric loop
(`None` is unreachable there: it is falsy). `none` models
`ValueError`. -/
def pyIntValue : Value → Option Int
  | .vStr s => pyIntOfChars s.data
  | .vInt n => some n
  | .vBool b => some (if b then 1 else 0)
  | .vNone => none

/-- The value transformation a numeric-loop iteration applies to the
cell stored under its field. -/
def numStep (v : Value) : Value :=
  if pyTruthy v then
    match pyIntValue v with
    | some n => Value.vInt n
    | none => v
  else v

/-- The value transformation a boolean-loop iteration applies to a
string cell (non-string cells raise instead). -/
def boolStep (v : Value) : Value :=
  match v with
  | Value.vStr s => Value.vBool (lowerStr s = "true")
  | _ => v

/-- One iteration of the numeric-coercion loop:
`if field in row and row[field]: try: row[field] = int(row[field])
except ValueError: pass`. -/
def coerceNumeric (row : ResultRow) (f : String) : ResultRow :=
  match rowGet row f with
  | none => row
  | some v =>
    if pyTruthy v then
      match pyIntValue v with
      | some n => rowSet row f (Value.vInt n)
      | none => row
    else row

/-- One iteration of the boolean-coercion loop:
`if field in row: row[field] = row[field].lower() == "true"`.
A non-string value (in particular the `None` of a short row) has no
`.lower()`: the `AttributeError` escapes the row loop. -/
def coerceBool (row : ResultRow) (f : String) : Except Unit ResultRow :=
  match rowGet row f with
  | none => Except.ok row
  | some (Value.vStr s) => Except.ok (rowSet row f (Value.vBool (lowerStr s = "true")))
  | some _ => Except.error ()

/-- Process one `DictReader` row: build the dict, run the numeric loop,
run the boolean loop. -/
def processRow (fields : List String) (cells : List String) : Except Unit ResultRow :=
  let row := zipRow fields cells
  let row := numeric_fields.foldl coerceNumeric row
  bool_fields.foldlM coerceBool row

/-- The accumulation discipline of the `for row in reader` loop with
the surrounding bare `except`: successful rows are appended in order;
the first row-processing error stops the loop and the rows accumulated
so far are returned. -/
def scanRows : List (Except Unit ResultRow) → List ResultRow → List ResultRow
  | [], acc => acc.reverse
  | Except.ok r :: rest, acc => scanRows rest (r :: acc)
  | Except.error _ :: _, acc => acc.reverse

/-- The `for row in reader` loop of `parse_csv_results`: process each
row in order, appending inside the `try` (row processing is pure, so
the loop is the scan over the per-row outcomes). -/
def processRowsAux (fields : List String) (rows : List (List String))
    (acc : List ResultRow) : List ResultRow :=
  scanRows (rows.map (processRow fields)) acc

/-- `parse_csv_results`.  `none` models a file whose `open` raises
(unreadable artifact): the bare `except` swallows the error before any
row was appended. -/
def parse_csv_results (file : Option String) : List ResultRow :=
  match file with
  | none => []
  | some content =>
    match csvSplitLines content with
    | [] => []
    | header :: dataLines =>
      let fields := (splitOnChar ',' header).map String.mk
      processRowsAux fields (dataLines.map (fun l => (splitOnChar ',' l).map String.mk)) []

/-- A cell as `csv.DictWriter` renders it (`restval=''` for a missing
key; `None` prints empty; booleans as `True`/`False`). -/
def csvCell : Option Value → String
  | none => ""
  | some (Value.vStr s) => s
  | some (Value.vInt n) => String.mk (intDecimal n)
  | some (Value.vBool b) => if b then "True" else "False"
  | some Value.vNone => ""

/-- `results_to_csv`: empty input yields the empty string (no
header-only document); otherwise the first record's keys fix the column
set and order, then one CRLF-terminated line per record. -/
def results_to_csv (results : List ResultRow) : String :=
  match results with
  | [] => ""
  | r0 :: _ =>
    let fields := r0.map Prod.fst
    let headerLine := joinWithChar ',' (fields.map String.data) ++ ['\r', '\n']
    let rowLines := results.map (fun r =>
      joinWithChar ',' (fields.map (fun f => (csvCell (rowGet r f)).data)) ++ ['\r', '\n'])
    String.mk (headerLine ++ rowLines.flatten)

/-- A cell holding a coerced numeric value (`vInt`), as `parse_csv_results`
leaves recognized numeric fields. -/
def isIntCell : Option Value → Bool
  | some (Value.vInt _) => true
  | _ => false

/-- A cell holding a coerced boolean value (`vBool`), as
`parse_csv_results` leaves recognized boolean fields. -/
def isBoolCell : Option Value → Bool
  | some (Value.vBool _) => true
  | _ => false

/-! ## Terminal transitions of `run_analysis` (lines 386–431) -/

/-- `stderr_output[-10:]`. -/
def last10 (l : List String) : List String := l.drop (l.length - 10)

/-- The normal epilogue of `run_analysis` after both stream readers have
joined and `process.wait()` returned (lines 386–424): clear the process
handle, then branch on the cancelled flag, the exit code, and the
presence of a results artifact (`csvFile` is its path and content when
exactly the glob matched). -/
def finishRun (job : AnalysisJob) (now : Nat) (returncode : Int)
    (stderr_output : List String) (csvFile : Option (String × String)) : AnalysisJob :=
  let job := { job with _process := none }
  if job.cancelled then
    { job with
      status := JobStatus.failed,
      message := "Analysis cancelled by user",
      output_lines := job.output_lines ++ [">>> Analysis cancelled by user <<<"],
      current_repo := none,
      completed_at := some now }
  else if returncode ≠ 0 then
    let errs := job.errors ++ ["Script failed with code " ++ String.mk (intDecimal returncode)]
    let errs := if stderr_output ≠ [] then errs ++ [String.intercalate "\n" (last10 stderr_output)] else errs
    { job with
      status := JobStatus.failed,
      errors := errs,
      message := "Analysis failed",
      current_repo := none,
      completed_at := some now }
  else
    let job :=
      match csvFile with
      | some (path, content) =>
        let res := parse_csv_results (some content)
        { job with
          output_file := some path,
          results := res,
          message := "Analysis complete. Found " ++ String.mk (natDecimal res.length) ++ " repositories.",
          processed_repos := res.length,
          total_repos := res.length }
      | none => { job with message := "Analysis complete but no output file found." }
    { job with
      status := JobStatus.completed,
      progress := 100,
      current_repo := none,
      completed_at := some now }

/-- The `except Exception` handler of `run_analysis` (lines 426–431):
mark Failed, record the error text, clear the current-item indicator and
set `completed_at` — the process handle is NOT touched by this branch
(the `job._process = None` of line 389 is inside the `try`). -/
def exceptBranch (job : AnalysisJob) (now : Nat) (msg : String) : AnalysisJob :=
  { job with
    status := JobStatus.failed,
    errors := job.errors ++ [msg],
    message := "Analysis failed: " ++ msg,
    current_repo := none,
    completed_at := some now }

/-! ## Lemmas about the double-precision model -/

theorem log2Fuel_bounds (fuel : Nat) :
    ∀ n : Nat, 0 < n → n ≤ fuel →
      2 ^ log2Fuel fuel n ≤ n ∧ n < 2 ^ (log2Fuel fuel n + 1) := by
  induction fuel with
  | zero => intro n h1 h2; omega
  | succ fuel ih =>
    intro n h1 h2
    by_cases h : 2 ≤ n
    · have hrec := ih (n / 2) (by omega) (by omega)
      simp only [log2Fuel, if_pos h]
      have e1 : 2 ^ (log2Fuel fuel (n / 2) + 1) = 2 * 2 ^ log2Fuel fuel (n / 2) := by ring
      have e2 : 2 ^ (log2Fuel fuel (n / 2) + 1 + 1) = 4 * 2 ^ log2Fuel fuel (n / 2) := by ring
      omega
    · simp only [log2Fuel, if_neg h]
      omega

theorem log2N_bounds (n : Nat) (hn : 0 < n) :
    2 ^ log2N n ≤ n ∧ n < 2 ^ (log2N n + 1) :=
  log2Fuel_bounds n n hn le_rfl

theorem expLe_iff (a b : Nat) (hb : 0 < b) (k : Int) :
    expLe a b k = true ↔ (2 : ℚ) ^ k ≤ (a : ℚ) / (b : ℚ) := by
  have hb' : (0 : ℚ) < (b : ℚ) := by exact_mod_cast hb
  unfold expLe
  split
  case isTrue hk =>
    rw [decide_eq_true_eq, le_div_iff₀ hb',
      show (2 : ℚ) ^ k = (2 : ℚ) ^ k.toNat by rw [← zpow_natCast, Int.toNat_of_nonneg hk]]
    constructor
    · intro h
      have h' : ((b * 2 ^ k.toNat : ℕ) : ℚ) ≤ (a : ℚ) := by exact_mod_cast h
      push_cast at h'
      linarith
    · intro h
      have h' : ((b * 2 ^ k.toNat : ℕ) : ℚ) ≤ (a : ℚ) := by push_cast; linarith
      exact_mod_cast h'
  case isFalse hk =>
    rw [decide_eq_true_eq, le_div_iff₀ hb',
      show (2 : ℚ) ^ k * b = (b : ℚ) / (2 : ℚ) ^ (-k).toNat by
        rw [← zpow_natCast (2 : ℚ) (-k).toNat, Int.toNat_of_nonneg (by omega : (0:ℤ) ≤ -k),
          div_eq_mul_inv, ← zpow_neg, neg_neg, mul_comm],
      div_le_iff₀ (by positivity)]
    constructor
    · intro h
      have h' : ((b : ℕ) : ℚ) ≤ ((a * 2 ^ (-k).toNat : ℕ) : ℚ) := by exact_mod_cast h
      push_cast at h'
      linarith
    · intro h
      have h' : ((b : ℕ) : ℚ) ≤ ((a * 2 ^ (-k).toNat : ℕ) : ℚ) := by push_cast; linarith
      exact_mod_cast h'

theorem findExp_le (a b : Nat) (ha : 0 < a) (hb : 0 < b) :
    (2 : ℚ) ^ findExp a b ≤ (a : ℚ) / b := by
  obtain ⟨la1, la2⟩ := log2N_bounds a ha
  obtain ⟨lb1, lb2⟩ := log2N_bounds b hb
  have ha' : (0 : ℚ) < (a : ℚ) := by exact_mod_cast ha
  have hb' : (0 : ℚ) < (b : ℚ) := by exact_mod_cast hb
  unfold findExp
  split
  case isTrue h => exact (expLe_iff a b hb _).mp h
  case isFalse h =>
    -- 2^(log2N a) ≤ a and b < 2^(log2N b + 1) give the lower bound at k0 - 1
    have hla : ((2 : ℚ)) ^ ((log2N a : ℤ)) ≤ (a : ℚ) := by
      rw [zpow_natCast]
      exact_mod_cast la1
    have hlb : (b : ℚ) < (2 : ℚ) ^ ((log2N b : ℤ) + 1) := by
      rw [show ((log2N b : ℤ) + 1) = ((log2N b + 1 : ℕ) : ℤ) by push_cast; ring, zpow_natCast]
      exact_mod_cast lb2
    rw [le_div_iff₀ hb']
    have hexp : (log2N a : ℤ) - (log2N b : ℤ) - 1 + ((log2N b : ℤ) + 1) = (log2N a : ℤ) := by ring
    calc (2 : ℚ) ^ ((log2N a : ℤ) - (log2N b : ℤ) - 1) * (b : ℚ)
        ≤ (2 : ℚ) ^ ((log2N a : ℤ) - (log2N b : ℤ) - 1) * (2 : ℚ) ^ ((log2N b : ℤ) + 1) := by
          apply mul_le_mul_of_nonneg_left (le_of_lt hlb) (by positivity)
      _ = (2 : ℚ) ^ ((log2N a : ℤ)) := by rw [← zpow_add₀ (by norm_num : (2:ℚ) ≠ 0), hexp]
      _ ≤ (a : ℚ) := hla

theorem findExp_lt (a b : Nat) (ha : 0 < a) (hb : 0 < b) :
    (a : ℚ) / b < (2 : ℚ) ^ (findExp a b + 1) := by
  obtain ⟨la1, la2⟩ := log2N_bounds a ha
  obtain ⟨lb1, lb2⟩ := log2N_bounds b hb
  have hb' : (0 : ℚ) < (b : ℚ) := by exact_mod_cast hb
  unfold findExp
  split
  case isTrue h =>
    -- a < 2^(log2N a + 1) and 2^(log2N b) ≤ b give the upper bound at k0 + 1
    have hla : (a : ℚ) < (2 : ℚ) ^ ((log2N a : ℤ) + 1) := by
      rw [show ((log2N a : ℤ) + 1) = ((log2N a + 1 : ℕ) : ℤ) by push_cast; ring, zpow_natCast]
      exact_mod_cast la2
    have hlb : ((2 : ℚ)) ^ ((log2N b : ℤ)) ≤ (b : ℚ) := by
      rw [zpow_natCast]
      exact_mod_cast lb1
    rw [div_lt_iff₀ hb']
    have hexp : (log2N a : ℤ) - (log2N b : ℤ) + 1 + (log2N b : ℤ) = (log2N a : ℤ) + 1 := by ring
    calc (a : ℚ) < (2 : ℚ) ^ ((log2N a : ℤ) + 1) := hla
      _ = (2 : ℚ) ^ ((log2N a : ℤ) - (log2N b : ℤ) + 1) * (2 : ℚ) ^ ((log2N b : ℤ)) := by
          rw [← zpow_add₀ (by norm_num : (2:ℚ) ≠ 0), hexp]
      _ ≤ (2 : ℚ) ^ ((log2N a : ℤ) - (log2N b : ℤ) + 1) * (b : ℚ) := by
          apply mul_le_mul_of_nonneg_left hlb (by positivity)
  case isFalse h =>
    have hlt := (not_iff_not.mpr (expLe_iff a b hb ((log2N a : ℤ) - (log2N b : ℤ)))).mp
      (by simpa using h)
    push_neg at hlt
    calc (a : ℚ) / b < (2 : ℚ) ^ ((log2N a : ℤ) - (log2N b : ℤ)) := hlt
      _ = (2 : ℚ) ^ ((log2N a : ℤ) - (log2N b : ℤ) - 1 + 1) := by ring_nf

theorem rheDiv_ub (A B : Nat) (hB : 0 < B) : 2 * rheDiv A B * B ≤ 2 * A + B := by
  unfold rheDiv
  have hdm : B * (A / B) + A % B = A := Nat.div_add_mod A B
  have hm : A % B < B := Nat.mod_lt _ hB
  generalize hq : A / B = q at hdm ⊢
  generalize hr : A % B = r at hdm hm ⊢
  split_ifs with h1 h2 h3 <;> nlinarith [hdm, hm]

theorem rheDiv_lb (A B : Nat) (hB : 0 < B) : 2 * A ≤ 2 * rheDiv A B * B + B := by
  unfold rheDiv
  have hdm : B * (A / B) + A % B = A := Nat.div_add_mod A B
  have hm : A % B < B := Nat.mod_lt _ hB
  generalize hq : A / B = q at hdm ⊢
  generalize hr : A % B = r at hdm hm ⊢
  split_ifs with h1 h2 h3 <;> nlinarith [hdm, hm]

theorem rheDiv_ub_q (A B : Nat) (hB : 0 < B) :
    (rheDiv A B : ℚ) ≤ (A : ℚ) / B + 1 / 2 := by
  have hB' : (0 : ℚ) < (B : ℚ) := by exact_mod_cast hB
  have h : ((2 * rheDiv A B * B : ℕ) : ℚ) ≤ ((2 * A + B : ℕ) : ℚ) := by
    exact_mod_cast rheDiv_ub A B hB
  push_cast at h
  rw [div_add_div _ _ (ne_of_gt hB') (by norm_num : (2:ℚ) ≠ 0), le_div_iff₀ (by positivity)]
  ring_nf
  ring_nf at h
  linarith

theorem rheDiv_lb_q (A B : Nat) (hB : 0 < B) :
    (A : ℚ) / B - 1 / 2 ≤ (rheDiv A B : ℚ) := by
  have hB' : (0 : ℚ) < (B : ℚ) := by exact_mod_cast hB
  have h : ((2 * A : ℕ) : ℚ) ≤ ((2 * rheDiv A B * B + B : ℕ) : ℚ) := by
    exact_mod_cast rheDiv_lb A B hB
  push_cast at h
  rw [div_sub_div _ _ (ne_of_gt hB') (by norm_num : (2:ℚ) ≠ 0), div_le_iff₀ (by positivity)]
  ring_nf
  ring_nf at h
  linarith

theorem rheDiv_exact (A B q : Nat) (hB : 0 < B) (h : B * q = A) : rheDiv A B = q := by
  subst h
  have hdiv : B * q / B = q := Nat.mul_div_cancel_left _ hB
  have hmod : B * q % B = 0 := Nat.mul_mod_right _ _
  unfold rheDiv
  rw [hdiv, hmod]
  simp [hB]

theorem rheDiv_tie (A B q : Nat) (hB : 0 < B) (h : 2 * A = (2 * q + 1) * B) :
    rheDiv A B = if q % 2 = 0 then q else q + 1 := by
  obtain ⟨Bh, hBh⟩ : ∃ Bh, B = 2 * Bh := by
    rcases Nat.even_or_odd B with he | ho
    · obtain ⟨r, hr⟩ := he
      exact ⟨r, by omega⟩
    · exfalso
      have hodd : Odd ((2 * q + 1) * B) := Nat.odd_mul.mpr ⟨⟨q, by omega⟩, ho⟩
      rw [← h] at hodd
      obtain ⟨c, hc⟩ := hodd
      omega
  subst hBh
  have hBh0 : 0 < Bh := by omega
  have hA : A = 2 * Bh * q + Bh := by
    have h2 : 2 * A = 2 * (2 * Bh * q + Bh) := by rw [h]; ring
    exact Nat.eq_of_mul_eq_mul_left (by omega) h2
  subst hA
  have hdiv : (2 * Bh * q + Bh) / (2 * Bh) = q := by
    rw [Nat.mul_add_div (by omega)]
    simp [Nat.div_eq_of_lt (show Bh < 2 * Bh by omega)]
  have hmod : (2 * Bh * q + Bh) % (2 * Bh) = Bh := by
    rw [Nat.mul_add_mod]
    exact Nat.mod_eq_of_lt (by omega)
  unfold rheDiv
  rw [hdiv, hmod]
  simp

theorem rheDiv_mono (A1 B1 A2 B2 : Nat) (hB1 : 0 < B1) (hB2 : 0 < B2)
    (h : A1 * B2 ≤ A2 * B1) : rheDiv A1 B1 ≤ rheDiv A2 B2 := by
  by_contra hcon
  push_neg at hcon
  have hb1 : (0 : ℚ) < (B1 : ℚ) := by exact_mod_cast hB1
  have hb2 : (0 : ℚ) < (B2 : ℚ) := by exact_mod_cast hB2
  have hx : (A1 : ℚ) / B1 ≤ (A2 : ℚ) / B2 := by
    rw [div_le_div_iff hb1 hb2]
    exact_mod_cast h
  have u1 := rheDiv_ub_q A1 B1 hB1
  have l2 := rheDiv_lb_q A2 B2 hB2
  have hmq : (rheDiv A2 B2 : ℚ) + 1 ≤ (rheDiv A1 B1 : ℚ) := by exact_mod_cast hcon
  have e1 : (A1 : ℚ) / B1 = (rheDiv A2 B2 : ℚ) + 1 / 2 := by linarith
  have e2 : (A2 : ℚ) / B2 = (rheDiv A2 B2 : ℚ) + 1 / 2 := by linarith
  have t1 : 2 * A1 = (2 * rheDiv A2 B2 + 1) * B1 := by
    have h' : ((2 * A1 : ℕ) : ℚ) = (((2 * rheDiv A2 B2 + 1) * B1 : ℕ) : ℚ) := by
      push_cast
      field_simp at e1
      linarith
    exact_mod_cast h'
  have t2 : 2 * A2 = (2 * rheDiv A2 B2 + 1) * B2 := by
    have h' : ((2 * A2 : ℕ) : ℚ) = (((2 * rheDiv A2 B2 + 1) * B2 : ℕ) : ℚ) := by
      push_cast
      field_simp at e2
      linarith
    exact_mod_cast h'
  have r1 := rheDiv_tie A1 B1 (rheDiv A2 B2) hB1 t1
  have r2 := rheDiv_tie A2 B2 (rheDiv A2 B2) hB2 t2
  by_cases hpar : rheDiv A2 B2 % 2 = 0 <;> simp [hpar] at r1 r2 <;> omega

theorem flA_pos (a b : Nat) (ha : 0 < a) : 0 < flA a b := by
  unfold flA
  split <;> positivity

theorem flB_pos (a b : Nat) (hb : 0 < b) : 0 < flB a b := by
  unfold flB
  split <;> positivity

theorem flAB_div (a b : Nat) (hb : 0 < b) :
    (flA a b : ℚ) / (flB a b : ℚ) =
      (a : ℚ) / b * (2 : ℚ) ^ ((52 : ℤ) - findExp a b) := by
  have hb' : (0 : ℚ) < (b : ℚ) := by exact_mod_cast hb
  unfold flA flB
  split
  case isTrue h =>
    have he : (((findExp a b - 52).toNat : ℤ)) = findExp a b - 52 :=
      Int.toNat_of_nonneg (by omega)
    push_cast
    rw [← zpow_natCast (2 : ℚ) (findExp a b - 52).toNat, he,
      show ((52 : ℤ) - findExp a b) = -(findExp a b - 52) by ring, zpow_neg,
      ← div_eq_mul_inv, div_div]
  case isFalse h =>
    have he : ((((52 : ℤ) - findExp a b).toNat : ℤ)) = 52 - findExp a b :=
      Int.toNat_of_nonneg (by omega)
    push_cast
    rw [← zpow_natCast (2 : ℚ) ((52 : ℤ) - findExp a b).toNat, he]
    ring

theorem flAB_lb (a b : Nat) (ha : 0 < a) (hb : 0 < b) :
    (2 : ℚ) ^ (52 : ℤ) ≤ (flA a b : ℚ) / (flB a b : ℚ) := by
  rw [flAB_div a b hb]
  have h := findExp_le a b ha hb
  have hpos : (0 : ℚ) < (2 : ℚ) ^ ((52 : ℤ) - findExp a b) := by positivity
  calc (2 : ℚ) ^ (52 : ℤ) = (2 : ℚ) ^ findExp a b * (2 : ℚ) ^ ((52 : ℤ) - findExp a b) := by
        rw [← zpow_add₀ (by norm_num : (2:ℚ) ≠ 0)]
        ring_nf
    _ ≤ (a : ℚ) / b * (2 : ℚ) ^ ((52 : ℤ) - findExp a b) :=
        mul_le_mul_of_nonneg_right h (le_of_lt hpos)

theorem flAB_ub (a b : Nat) (ha : 0 < a) (hb : 0 < b) :
    (flA a b : ℚ) / (flB a b : ℚ) < (2 : ℚ) ^ (53 : ℤ) := by
  rw [flAB_div a b hb]
  have h := findExp_lt a b ha hb
  have hpos : (0 : ℚ) < (2 : ℚ) ^ ((52 : ℤ) - findExp a b) := by positivity
  calc (a : ℚ) / b * (2 : ℚ) ^ ((52 : ℤ) - findExp a b)
      < (2 : ℚ) ^ (findExp a b + 1) * (2 : ℚ) ^ ((52 : ℤ) - findExp a b) :=
        mul_lt_mul_of_pos_right h hpos
    _ = (2 : ℚ) ^ (53 : ℤ) := by
        rw [← zpow_add₀ (by norm_num : (2:ℚ) ≠ 0)]
        ring_nf

theorem flNat_m_lb (a b : Nat) (ha : 0 < a) (hb : 0 < b) : 2 ^ 52 ≤ (flNat a b).1 := by
  have hB := flB_pos a b hb
  have hBq : (0 : ℚ) < (flB a b : ℚ) := by exact_mod_cast hB
  have h1 := rheDiv_lb_q (flA a b) (flB a b) hB
  have h2 := flAB_lb a b ha hb
  have hlt : ((2 ^ 52 - 1 : ℕ) : ℚ) < (rheDiv (flA a b) (flB a b) : ℚ) := by
    push_cast
    have : ((2 : ℚ) ^ (52 : ℤ)) = 2 ^ (52 : ℕ) := by norm_num
    nlinarith [h1, h2]
  have := (Nat.cast_lt (α := ℚ)).mp hlt
  unfold flNat
  omega

theorem flNat_m_ub (a b : Nat) (ha : 0 < a) (hb : 0 < b) : (flNat a b).1 ≤ 2 ^ 53 := by
  have hB := flB_pos a b hb
  have h1 := rheDiv_ub_q (flA a b) (flB a b) hB
  have h2 := flAB_ub a b ha hb
  have hlt : (rheDiv (flA a b) (flB a b) : ℚ) < ((2 ^ 53 + 1 : ℕ) : ℚ) := by
    push_cast
    have : ((2 : ℚ) ^ (53 : ℤ)) = 2 ^ (53 : ℕ) := by norm_num
    nlinarith [h1, h2]
  have := (Nat.cast_lt (α := ℚ)).mp hlt
  unfold flNat
  omega

theorem fpVal_flNat (a b : Nat) :
    fpVal (flNat a b) = (rheDiv (flA a b) (flB a b) : ℚ) * (2 : ℚ) ^ (findExp a b - 52) := rfl

theorem fpVal_ub (a b : Nat) (ha : 0 < a) (hb : 0 < b) :
    fpVal (flNat a b) ≤ (a : ℚ) / b + (2 : ℚ) ^ (findExp a b - 53) := by
  have hB := flB_pos a b hb
  have hBq : (0 : ℚ) < (flB a b : ℚ) := by exact_mod_cast hB
  have h1 := rheDiv_ub_q (flA a b) (flB a b) hB
  have hdiv := flAB_div a b hb
  have hpos : (0 : ℚ) < (2 : ℚ) ^ (findExp a b - 52) := by positivity
  rw [fpVal_flNat]
  have step : (rheDiv (flA a b) (flB a b) : ℚ) * (2 : ℚ) ^ (findExp a b - 52) ≤
      ((flA a b : ℚ) / (flB a b : ℚ) + 1 / 2) * (2 : ℚ) ^ (findExp a b - 52) :=
    mul_le_mul_of_nonneg_right h1 (le_of_lt hpos)
  refine le_trans step (le_of_eq ?_)
  rw [hdiv]
  have key1 : (2:ℚ) ^ ((52:ℤ) - findExp a b) * (2:ℚ) ^ (findExp a b - 52) = 1 := by
    rw [← zpow_add₀ (by norm_num : (2:ℚ) ≠ 0)]
    norm_num
  have key2 : (1 / 2 : ℚ) * (2:ℚ) ^ (findExp a b - 52) = (2:ℚ) ^ (findExp a b - 53) := by
    rw [show findExp a b - 52 = findExp a b - 53 + 1 by ring,
      zpow_add₀ (by norm_num : (2:ℚ) ≠ 0)]
    ring
  calc ((a:ℚ) / b * (2:ℚ) ^ ((52:ℤ) - findExp a b) + 1 / 2) * (2:ℚ) ^ (findExp a b - 52)
      = (a:ℚ) / b * ((2:ℚ) ^ ((52:ℤ) - findExp a b) * (2:ℚ) ^ (findExp a b - 52)) +
        (1 / 2) * (2:ℚ) ^ (findExp a b - 52) := by ring
    _ = (a : ℚ) / b + (2:ℚ) ^ (findExp a b - 53) := by rw [key1, key2]; ring

theorem fpVal_lb (a b : Nat) (ha : 0 < a) (hb : 0 < b) :
    (a : ℚ) / b - (2 : ℚ) ^ (findExp a b - 53) ≤ fpVal (flNat a b) := by
  have hB := flB_pos a b hb
  have h1 := rheDiv_lb_q (flA a b) (flB a b) hB
  have hdiv := flAB_div a b hb
  have hpos : (0 : ℚ) < (2 : ℚ) ^ (findExp a b - 52) := by positivity
  rw [fpVal_flNat]
  have step : ((flA a b : ℚ) / (flB a b : ℚ) - 1 / 2) * (2 : ℚ) ^ (findExp a b - 52) ≤
      (rheDiv (flA a b) (flB a b) : ℚ) * (2 : ℚ) ^ (findExp a b - 52) :=
    mul_le_mul_of_nonneg_right h1 (le_of_lt hpos)
  refine le_trans (le_of_eq ?_) step
  rw [hdiv]
  have key1 : (2:ℚ) ^ ((52:ℤ) - findExp a b) * (2:ℚ) ^ (findExp a b - 52) = 1 := by
    rw [← zpow_add₀ (by norm_num : (2:ℚ) ≠ 0)]
    norm_num
  have key2 : (1 / 2 : ℚ) * (2:ℚ) ^ (findExp a b - 52) = (2:ℚ) ^ (findExp a b - 53) := by
    rw [show findExp a b - 52 = findExp a b - 53 + 1 by ring,
      zpow_add₀ (by norm_num : (2:ℚ) ≠ 0)]
    ring
  calc (a : ℚ) / b - (2:ℚ) ^ (findExp a b - 53)
      = (a:ℚ) / b * 1 - (1 / 2) * (2:ℚ) ^ (findExp a b - 52) := by rw [key2]; ring
    _ = (a:ℚ) / b * ((2:ℚ) ^ ((52:ℤ) - findExp a b) * (2:ℚ) ^ (findExp a b - 52)) -
        (1 / 2) * (2:ℚ) ^ (findExp a b - 52) := by rw [key1]
    _ = ((a:ℚ) / b * (2:ℚ) ^ ((52:ℤ) - findExp a b) - 1 / 2) * (2:ℚ) ^ (findExp a b - 52) := by
        ring

theorem fpVal_ge_exp (a b : Nat) (ha : 0 < a) (hb : 0 < b) :
    (2 : ℚ) ^ findExp a b ≤ fpVal (flNat a b) := by
  have hm := flNat_m_lb a b ha hb
  have hmq : ((2 ^ 52 : ℕ) : ℚ) ≤ ((flNat a b).1 : ℚ) := by exact_mod_cast hm
  unfold fpVal
  calc (2 : ℚ) ^ findExp a b = (2 : ℚ) ^ (52 : ℕ) * (2 : ℚ) ^ ((flNat a b).2 - 52) := by
        rw [← zpow_natCast (2:ℚ) 52, ← zpow_add₀ (by norm_num : (2:ℚ) ≠ 0)]
        norm_num
        rfl
    _ ≤ ((flNat a b).1 : ℚ) * (2 : ℚ) ^ ((flNat a b).2 - 52) := by
        apply mul_le_mul_of_nonneg_right _ (by positivity)
        push_cast at hmq
        exact hmq

theorem fpVal_le_exp (a b : Nat) (ha : 0 < a) (hb : 0 < b) :
    fpVal (flNat a b) ≤ (2 : ℚ) ^ (findExp a b + 1) := by
  have hm := flNat_m_ub a b ha hb
  have hmq : ((flNat a b).1 : ℚ) ≤ ((2 ^ 53 : ℕ) : ℚ) := by exact_mod_cast hm
  unfold fpVal
  calc ((flNat a b).1 : ℚ) * (2 : ℚ) ^ ((flNat a b).2 - 52)
      ≤ (2 : ℚ) ^ (53 : ℕ) * (2 : ℚ) ^ ((flNat a b).2 - 52) := by
        apply mul_le_mul_of_nonneg_right _ (by positivity)
        push_cast at hmq
        exact hmq
    _ = (2 : ℚ) ^ (findExp a b + 1) := by
        rw [← zpow_natCast (2:ℚ) 53, ← zpow_add₀ (by norm_num : (2:ℚ) ≠ 0)]
        show (2:ℚ) ^ ((53 : ℤ) + (findExp a b - 52)) = _
        ring_nf

theorem fpVal_pos (a b : Nat) (ha : 0 < a) (hb : 0 < b) : 0 < fpVal (flNat a b) := by
  have h := fpVal_ge_exp a b ha hb
  have : (0 : ℚ) < (2 : ℚ) ^ findExp a b := by positivity
  linarith

theorem fpVal_le_one (a b : Nat) (ha : 0 < a) (hb : 0 < b) (h : a ≤ b) :
    fpVal (flNat a b) ≤ 1 := by
  have hb' : (0 : ℚ) < (b : ℚ) := by exact_mod_cast hb
  have hdiv1 : (a : ℚ) / b ≤ 1 := by
    rw [div_le_one hb']
    exact_mod_cast h
  have hk : findExp a b ≤ 0 := by
    by_contra hcon
    push_neg at hcon
    have h1 := findExp_le a b ha hb
    have h2 : (2 : ℚ) ^ (1 : ℤ) ≤ (2 : ℚ) ^ findExp a b :=
      zpow_le_zpow_right₀ (by norm_num) (by omega)
    norm_num at h2
    linarith
  rcases lt_or_eq_of_le hk with hlt | heq
  · have h2 := fpVal_le_exp a b ha hb
    calc fpVal (flNat a b) ≤ (2 : ℚ) ^ (findExp a b + 1) := h2
      _ ≤ (2 : ℚ) ^ (0 : ℤ) := zpow_le_zpow_right₀ (by norm_num) (by omega)
      _ = 1 := by norm_num
  · -- findExp = 0 forces a = b and the rounding is exact: the value is 1
    have h1 := findExp_le a b ha hb
    rw [heq] at h1
    norm_num at h1
    have hab : (a : ℚ) = (b : ℚ) := by
      have : (b : ℚ) ≤ (a : ℚ) := by
        rw [le_div_iff₀ hb'] at h1
        linarith
      have h' : (a : ℚ) ≤ (b : ℚ) := by exact_mod_cast h
      linarith
    have hab' : a = b := by exact_mod_cast hab
    subst hab'
    have hA : flA a a = a * 2 ^ 52 := by
      unfold flA
      rw [if_neg (by rw [heq]; omega)]
      congr 1
      rw [heq]
      rfl
    have hB : flB a a = a := by
      unfold flB
      rw [if_neg (by rw [heq]; omega)]
    have hm : rheDiv (flA a a) (flB a a) = 2 ^ 52 := by
      rw [hA, hB]
      exact rheDiv_exact _ _ _ ha (by ring)
    rw [fpVal_flNat, hm, heq]
    norm_num

theorem fpVal_mono (a1 b1 a2 b2 : Nat) (ha1 : 0 < a1) (hb1 : 0 < b1)
    (ha2 : 0 < a2) (hb2 : 0 < b2) (h : (a1 : ℚ) / b1 ≤ (a2 : ℚ) / b2) :
    fpVal (flNat a1 b1) ≤ fpVal (flNat a2 b2) := by
  have hk : findExp a1 b1 ≤ findExp a2 b2 := by
    by_contra hcon
    push_neg at hcon
    have h1 := findExp_le a1 b1 ha1 hb1
    have h2 := findExp_lt a2 b2 ha2 hb2
    have h3 : (2 : ℚ) ^ (findExp a2 b2 + 1) ≤ (2 : ℚ) ^ findExp a1 b1 :=
      zpow_le_zpow_right₀ (by norm_num) (by omega)
    linarith
  rcases lt_or_eq_of_le hk with hlt | heq
  · have h1 := fpVal_le_exp a1 b1 ha1 hb1
    have h2 := fpVal_ge_exp a2 b2 ha2 hb2
    calc fpVal (flNat a1 b1) ≤ (2 : ℚ) ^ (findExp a1 b1 + 1) := h1
      _ ≤ (2 : ℚ) ^ findExp a2 b2 := zpow_le_zpow_right₀ (by norm_num) (by omega)
      _ ≤ fpVal (flNat a2 b2) := h2
  · have hB1 := flB_pos a1 b1 hb1
    have hB2 := flB_pos a2 b2 hb2
    have hq1 : (0 : ℚ) < (flB a1 b1 : ℚ) := by exact_mod_cast hB1
    have hq2 : (0 : ℚ) < (flB a2 b2 : ℚ) := by exact_mod_cast hB2
    have hAB : (flA a1 b1 : ℚ) / flB a1 b1 ≤ (flA a2 b2 : ℚ) / flB a2 b2 := by
      rw [flAB_div a1 b1 hb1, flAB_div a2 b2 hb2, heq]
      exact mul_le_mul_of_nonneg_right h (by positivity)
    have hcross : flA a1 b1 * flB a2 b2 ≤ flA a2 b2 * flB a1 b1 := by
      rw [div_le_div_iff hq1 hq2] at hAB
      exact_mod_cast hAB
    have hm := rheDiv_mono _ _ _ _ hB1 hB2 hcross
    rw [fpVal_flNat, fpVal_flNat, heq]
    apply mul_le_mul_of_nonneg_right _ (by positivity)
    exact_mod_cast hm

theorem pct2Num_pos (f : Nat × Int) (hm : 0 < f.1) : 0 < pct2Num f := by
  unfold pct2Num
  split <;> positivity

theorem pct2Den_pos (f : Nat × Int) : 0 < pct2Den f := by
  unfold pct2Den
  split <;> positivity

theorem pct2_div (f : Nat × Int) :
    (pct2Num f : ℚ) / pct2Den f = 100 * fpVal f := by
  unfold pct2Num pct2Den fpVal
  split
  case isTrue h =>
    have he : (((f.2 - 52).toNat : ℤ)) = f.2 - 52 := Int.toNat_of_nonneg (by omega)
    push_cast
    rw [← zpow_natCast (2 : ℚ) (f.2 - 52).toNat, he]
    ring
  case isFalse h =>
    have he : ((((52 : ℤ) - f.2).toNat : ℤ)) = 52 - f.2 := Int.toNat_of_nonneg (by omega)
    push_cast
    rw [← zpow_natCast (2 : ℚ) ((52 : ℤ) - f.2).toNat, he,
      show ((52 : ℤ) - f.2) = -(f.2 - 52) by ring, zpow_neg, div_eq_mul_inv, inv_inv]
    ring

theorem truncFp_floor (f : Nat × Int) : (truncFp f : ℤ) = ⌊fpVal f⌋ := by
  unfold truncFp fpVal
  split
  case isTrue h =>
    have he : (((f.2 - 52).toNat : ℤ)) = f.2 - 52 := Int.toNat_of_nonneg (by omega)
    rw [show ((f.1 : ℚ) * (2 : ℚ) ^ (f.2 - 52)) = (((f.1 * 2 ^ (f.2 - 52).toNat : ℕ) : ℚ)) by
      push_cast
      rw [← zpow_natCast (2 : ℚ) (f.2 - 52).toNat, he]]
    rw [Int.floor_natCast]
  case isFalse h =>
    have he : ((((52 : ℤ) - f.2).toNat : ℤ)) = 52 - f.2 := Int.toNat_of_nonneg (by omega)
    have hval : (f.1 : ℚ) * (2 : ℚ) ^ (f.2 - 52) =
        (f.1 : ℚ) / ((2 ^ ((52 : ℤ) - f.2).toNat : ℕ) : ℚ) := by
      push_cast
      rw [← zpow_natCast (2 : ℚ) ((52 : ℤ) - f.2).toNat, he,
        show ((52 : ℤ) - f.2) = -(f.2 - 52) by ring, zpow_neg, div_eq_mul_inv, inv_inv]
    rw [hval]
    symm
    rw [Int.floor_eq_iff]
    constructor
    · have hle : (f.1 / 2 ^ ((52 : ℤ) - f.2).toNat) * 2 ^ ((52 : ℤ) - f.2).toNat ≤ f.1 :=
        Nat.div_mul_le_self _ _
      rw [le_div_iff₀ (by positivity)]
      calc ((f.1 / 2 ^ ((52 : ℤ) - f.2).toNat : ℕ) : ℚ) * ((2 ^ ((52 : ℤ) - f.2).toNat : ℕ) : ℚ)
          = (((f.1 / 2 ^ ((52 : ℤ) - f.2).toNat) * 2 ^ ((52 : ℤ) - f.2).toNat : ℕ) : ℚ) := by
            push_cast; ring
        _ ≤ (f.1 : ℚ) := by exact_mod_cast hle
    · have hdm := Nat.div_add_mod f.1 (2 ^ ((52 : ℤ) - f.2).toNat)
      have hmod := Nat.mod_lt f.1 (show 0 < 2 ^ ((52 : ℤ) - f.2).toNat by positivity)
      have hlt : f.1 < (f.1 / 2 ^ ((52 : ℤ) - f.2).toNat + 1) * 2 ^ ((52 : ℤ) - f.2).toNat := by
        nlinarith [hdm, hmod]
      rw [div_lt_iff₀ (by positivity)]
      calc (f.1 : ℚ) <
          (((f.1 / 2 ^ ((52 : ℤ) - f.2).toNat + 1) * 2 ^ ((52 : ℤ) - f.2).toNat : ℕ) : ℚ) := by
            exact_mod_cast hlt
        _ = (((f.1 / 2 ^ ((52 : ℤ) - f.2).toNat : ℕ) : ℚ) + 1) *
            ((2 ^ ((52 : ℤ) - f.2).toNat : ℕ) : ℚ) := by push_cast; ring

theorem truncFp_mono (f1 f2 : Nat × Int) (h : fpVal f1 ≤ fpVal f2) :
    truncFp f1 ≤ truncFp f2 := by
  have h1 := truncFp_floor f1
  have h2 := truncFp_floor f2
  have := Int.floor_mono h
  omega

theorem truncFp_le_val (f : Nat × Int) : (truncFp f : ℚ) ≤ fpVal f := by
  have h := truncFp_floor f
  have h2 := Int.floor_le (fpVal f)
  calc (truncFp f : ℚ) = ((truncFp f : ℤ) : ℚ) := by push_cast; ring
    _ = ((⌊fpVal f⌋ : ℤ) : ℚ) := by rw [h]
    _ ≤ fpVal f := h2

theorem pyPct_le_100 (p t : Nat) (ht : 0 < t) (hpt : p ≤ t) : pyPct p t ≤ 100 := by
  unfold pyPct
  split
  case isTrue => omega
  case isFalse hp =>
    have hp' : 0 < p := by omega
    have hm1 := flNat_m_lb p t hp' ht
    have hval1 := fpVal_le_one p t hp' ht hpt
    have hval1' := fpVal_pos p t hp' ht
    have hN := pct2Num_pos (flNat p t) (by omega)
    have hD := pct2Den_pos (flNat p t)
    have hNq : (0 : ℚ) < pct2Num (flNat p t) := by exact_mod_cast hN
    have hDq : (0 : ℚ) < pct2Den (flNat p t) := by exact_mod_cast hD
    have hratio : (pct2Num (flNat p t) : ℚ) / pct2Den (flNat p t) ≤ 100 := by
      rw [pct2_div]
      linarith
    have hratio' : (0 : ℚ) < (pct2Num (flNat p t) : ℚ) / pct2Den (flNat p t) := by positivity
    -- exponent of the product is at most 6, since the ratio is ≤ 100 < 2^7
    have hk : findExp (pct2Num (flNat p t)) (pct2Den (flNat p t)) ≤ 6 := by
      by_contra hcon
      push_neg at hcon
      have h1 := findExp_le (pct2Num (flNat p t)) (pct2Den (flNat p t)) hN hD
      have h2 : (2 : ℚ) ^ (7 : ℤ) ≤
          (2 : ℚ) ^ findExp (pct2Num (flNat p t)) (pct2Den (flNat p t)) :=
        zpow_le_zpow_right₀ (by norm_num) (by omega)
      norm_num at h2
      linarith
    have hub := fpVal_ub (pct2Num (flNat p t)) (pct2Den (flNat p t)) hN hD
    have herr : (2 : ℚ) ^ (findExp (pct2Num (flNat p t)) (pct2Den (flNat p t)) - 53) <
        (2 : ℚ) ^ (0 : ℤ) := zpow_lt_zpow_right₀ (by norm_num) (by omega)
    norm_num at herr
    have hfin : fpVal (flNat (pct2Num (flNat p t)) (pct2Den (flNat p t))) < 101 := by
      linarith
    have htr := truncFp_le_val (flNat (pct2Num (flNat p t)) (pct2Den (flNat p t)))
    have : ((truncFp (flNat (pct2Num (flNat p t)) (pct2Den (flNat p t))) : ℕ) : ℚ) <
        ((101 : ℕ) : ℚ) := by push_cast; linarith
    have := (Nat.cast_lt (α := ℚ)).mp this
    omega

theorem pyPct_mono (p1 p2 t : Nat) (ht : 0 < t) (h : p1 ≤ p2) :
    pyPct p1 t ≤ pyPct p2 t := by
  unfold pyPct
  split
  case isTrue => omega
  case isFalse hp1 =>
    rw [if_neg (by omega : ¬ p2 = 0)]
    have hp1' : 0 < p1 := by omega
    have hp2' : 0 < p2 := by omega
    have ht' : (0 : ℚ) < (t : ℚ) := by exact_mod_cast ht
    have hm1 := flNat_m_lb p1 t hp1' ht
    have hm2 := flNat_m_lb p2 t hp2' ht
    have hv1 : fpVal (flNat p1 t) ≤ fpVal (flNat p2 t) := by
      apply fpVal_mono p1 t p2 t hp1' ht hp2' ht
      gcongr
    have hN1 := pct2Num_pos (flNat p1 t) (by omega)
    have hD1 := pct2Den_pos (flNat p1 t)
    have hN2 := pct2Num_pos (flNat p2 t) (by omega)
    have hD2 := pct2Den_pos (flNat p2 t)
    have hv2 : fpVal (flNat (pct2Num (flNat p1 t)) (pct2Den (flNat p1 t))) ≤
        fpVal (flNat (pct2Num (flNat p2 t)) (pct2Den (flNat p2 t))) := by
      apply fpVal_mono _ _ _ _ hN1 hD1 hN2 hD2
      rw [pct2_div, pct2_div]
      linarith
    exact truncFp_mono _ _ hv2

/-! ### Field bookkeeping for the stream-reader branches -/

theorem bufferLine_progress (job : AnalysisJob) (d : String) :
    (bufferLine job d).progress = job.progress := by
  unfold bufferLine
  split <;> rfl

theorem bufferLine_processed (job : AnalysisJob) (d : String) :
    (bufferLine job d).processed_repos = job.processed_repos := by
  unfold bufferLine
  split <;> rfl

theorem bufferLine_total (job : AnalysisJob) (d : String) :
    (bufferLine job d).total_repos = job.total_repos := by
  unfold bufferLine
  split <;> rfl

theorem applyIndexed_processed (job : AnalysisJob) (p t : Nat) (g3 : Option (List Char)) :
    (applyIndexed job p t g3).processed_repos = p := by
  unfold applyIndexed
  cases g3 <;> dsimp only <;> split <;> rfl

theorem applyIndexed_total (job : AnalysisJob) (p t : Nat) (g3 : Option (List Char)) :
    (applyIndexed job p t g3).total_repos = t := by
  unfold applyIndexed
  cases g3 <;> dsimp only <;> split <;> rfl

theorem applyIndexed_progress (job : AnalysisJob) (p t : Nat) (g3 : Option (List Char)) :
    (applyIndexed job p t g3).progress = if 0 < t then pyPct p t else job.progress := by
  unfold applyIndexed
  cases g3 <;> dsimp only <;> split <;> rfl

theorem applyFound_progress (job : AnalysisJob) (t : Nat) :
    (applyFound job t).progress = job.progress := rfl

theorem applyFound_processed (job : AnalysisJob) (t : Nat) :
    (applyFound job t).processed_repos = job.processed_repos := rfl

theorem applyFound_total (job : AnalysisJob) (t : Nat) :
    (applyFound job t).total_repos = t := rfl

theorem applyAnalyzing_processed (job : AnalysisJob) (cs : List Char) :
    (applyAnalyzing job cs).processed_repos = job.processed_repos + 1 := by
  unfold applyAnalyzing
  dsimp only
  split <;> rfl

theorem applyAnalyzing_total (job : AnalysisJob) (cs : List Char) :
    (applyAnalyzing job cs).total_repos = job.total_repos := by
  unfold applyAnalyzing
  dsimp only
  split <;> rfl

theorem applyAnalyzing_progress (job : AnalysisJob) (cs : List Char) :
    (applyAnalyzing job cs).progress =
      if 0 < job.total_repos then pyPct (job.processed_repos + 1) job.total_repos
      else job.progress := by
  unfold applyAnalyzing
  dsimp only
  split <;> rfl

/-! ## Claim C10: cancel of an unknown job id -/

/-- C10: for every identifier not present in the job registry,
`cancel_job` returns failure with the message "Job not found" and
leaves the registry (hence every job record) unchanged. -/
theorem cancel_job_unknown_id (jobs : Registry) (job_id : String)
    (termError : Option String) (h : get_job jobs job_id = none) :
    cancel_job jobs job_id termError = ((false, "Job not found"), jobs) := by
  unfold cancel_job
  rw [h]

/-- C10 witness: a concrete registry without the requested id. -/
theorem cancel_job_unknown_id_witness :
    get_job [("a", { job_id := "a" })] "b" = none ∧
    cancel_job [("a", { job_id := "a" })] "b" none =
      ((false, "Job not found"), [("a", { job_id := "a" })]) :=
  ⟨by decide, cancel_job_unknown_id [("a", { job_id := "a" })] "b" none (by decide)⟩

/-! ## Claim C6: cancel of a job that is not running -/

/-- C6: for every job whose status is not Running, `cancel_job` on its
identifier returns failure with a message indicating the job is not
running, and returns the registry unchanged — no field of any record is
mutated on this path. -/
theorem cancel_job_not_running (jobs : Registry) (job_id : String)
    (termError : Option String) (job : AnalysisJob)
    (hfind : get_job jobs job_id = some job)
    (hstatus : job.status ≠ JobStatus.running) :
    cancel_job jobs job_id termError =
      ((false, "Job is not running (current status: " ++ job.status.value ++ ")"), jobs) := by
  unfold cancel_job
  rw [hfind]
  simp [hstatus]

/-- C6 witness: a concrete Pending job is refused with the expected
message and the registry is returned unchanged. -/
theorem cancel_job_not_running_witness :
    get_job [("a", { job_id := "a", status := JobStatus.pending })] "a" =
      some { job_id := "a", status := JobStatus.pending } ∧
    cancel_job [("a", { job_id := "a", status := JobStatus.pending })] "a" none =
      ((false, "Job is not running (current status: pending)"),
        [("a", { job_id := "a", status := JobStatus.pending })]) :=
  ⟨by decide,
   cancel_job_not_running [("a", { job_id := "a", status := JobStatus.pending })] "a" none
     { job_id := "a", status := JobStatus.pending } (by decide) (by decide)⟩

/-! ## Claim C1: terminal transitions and the process handle -/

/-- C1 (code bug evidence): the three normal terminal transitions of
`run_analysis` (cancelled, non-zero exit, zero exit) clear both the
process handle and the current-item indicator, but the
unexpected-exception path (`except Exception`, lines 426–431) clears
only the current-item indicator and leaves the process handle set: a
job failed by an exception raised between the handle store (line 312)
and the handle clear (line 389) ends terminal with a non-null handle,
violating "childProcessHandle is non-null only while status ==
Running". -/
theorem run_analysis_exception_path_leaks_handle :
    -- the job as it stands mid-run: Running, handle stored
    (let job : AnalysisJob :=
      { job_id := "j", status := JobStatus.running, started_at := some 1,
        _process := some (), current_repo := some "r" }
     -- cancelled path clears both
     ((finishRun { job with cancelled := true } 2 0 [] none)._process = none ∧
      (finishRun { job with cancelled := true } 2 0 [] none).current_repo = none ∧
      (finishRun { job with cancelled := true } 2 0 [] none).status = JobStatus.failed) ∧
     -- non-zero-exit path clears both
     ((finishRun job 2 1 ["boom"] none)._process = none ∧
      (finishRun job 2 1 ["boom"] none).current_repo = none ∧
      (finishRun job 2 1 ["boom"] none).status = JobStatus.failed) ∧
     -- zero-exit path clears both
     ((finishRun job 2 0 [] (some ("out.csv", "")))._process = none ∧
      (finishRun job 2 0 [] (some ("out.csv", ""))).current_repo = none ∧
      (finishRun job 2 0 [] (some ("out.csv", ""))).status = JobStatus.completed) ∧
     -- exception path: terminal Failed, current item cleared, but the
     -- handle survives
     ((exceptBranch job 2 "unexpected error")._process = some () ∧
      (exceptBranch job 2 "unexpected error").current_repo = none ∧
      (exceptBranch job 2 "unexpected error").status = JobStatus.failed ∧
      (exceptBranch job 2 "unexpected error").completed_at = some 2)) := by
  decide

/-! ## Claim C2: progress stays in 0..100 — counterexample -/

/-- C2 counterexample: from a freshly started job, the diagnostic lines
"Found 2 repositories", then three "Analyzing …" lines drive
`processed_repos` to 3 past the known total of 2, and `progress`
to 150 — the code never clamps the percentage at 100. -/
theorem progress_exceeds_100_counterexample :
    (processLines (startRun ((create_job [] "j" {}).1) 1)
        ["Found 2 repositories", "Analyzing a", "Analyzing b", "Analyzing c"]).progress = 150 ∧
    ¬ (processLines (startRun ((create_job [] "j" {}).1) 1)
        ["Found 2 repositories", "Analyzing a", "Analyzing b", "Analyzing c"]).progress ≤ 100 := by
  decide

/-! ## Claim C3: progress monotonicity — counterexample -/

/-- C3 counterexample: while Running, a later indexed-progress line
reporting a smaller index strictly decreases `progress`: after
"Processing 5/10" progress is 50, and the subsequent line
"Processing 1/10" drops it to 10. -/
theorem progress_decreases_counterexample :
    (processLines (startRun ((create_job [] "j" {}).1) 1) ["Processing 5/10"]).progress = 50 ∧
    (processLines (startRun ((create_job [] "j" {}).1) 1)
        ["Processing 5/10", "Processing 1/10"]).progress = 10 ∧
    ¬ (50 : Nat) ≤ 10 := by
  decide

/-! ## Claim C4: malformed artifacts — counterexample -/

/-- C4 counterexample: an artifact whose second data row is short makes
row processing raise (`None.lower()`, an `AttributeError`) midway, yet
`parse_csv_results` returns the one successfully processed row — not
the empty sequence: rows are appended inside the `try`, so an error at
row k returns the first k rows. -/
theorem parse_csv_partial_after_error_counterexample :
    processRow ["Repo_Name", "Is_Empty"] ["b"] = Except.error () ∧
    parse_csv_results (some "Repo_Name,Is_Empty\r\na,True\r\nb") =
      [[("Repo_Name", Value.vStr "a"), ("Is_Empty", Value.vBool true)]] ∧
    parse_csv_results (some "Repo_Name,Is_Empty\r\na,True\r\nb") ≠ [] := by
  decide

/-! ## Claim C5: the indexed-progress recognizer — counterexample to
the floor formula -/

/-- C5 counterexample: on the line "Processing 29/50: x" the code sets
`progress = int((29/50) * 100)`, evaluated in double precision: the
rounded product is just below 58, so truncation yields 57, while the
claimed `floor(29 * 100 / 50)` is 58. -/
theorem progress_floor_formula_counterexample :
    (processLine (startRun ((create_job [] "j" {}).1) 1) "Processing 29/50: x").processed_repos = 29 ∧
    (processLine (startRun ((create_job [] "j" {}).1) 1) "Processing 29/50: x").total_repos = 50 ∧
    (processLine (startRun ((create_job [] "j" {}).1) 1) "Processing 29/50: x").progress = 57 ∧
    29 * 100 / 50 = 58 := by
  decide

/-! ## Claim C7: recognizer order, first match wins -/

/-- C7: for every diagnostic line the three recognizers are attempted
in order — indexed progress, total discovery, named item — and exactly
the first matching recognizer's update is applied to the (ring-buffer
updated) record; a line matching an earlier recognizer never also
triggers a later one, and a line matching none leaves everything but
the ring buffer unchanged. -/
theorem read_stderr_first_match_wins (job : AnalysisJob) (line : String) :
    (∀ p t g3, searchProcessing (pyStrip line).data = some (p, t, g3) →
      processLine job line = applyIndexed (bufferLine job (pyStrip line)) p t g3) ∧
    (searchProcessing (pyStrip line).data = none →
      ∀ t, searchFound (pyStrip line).data = some t →
      processLine job line = applyFound (bufferLine job (pyStrip line)) t) ∧
    (searchProcessing (pyStrip line).data = none →
      searchFound (pyStrip line).data = none →
      ∀ cs, searchAnalyzing (pyStrip line).data = some cs →
      processLine job line = applyAnalyzing (bufferLine job (pyStrip line)) cs) ∧
    (searchProcessing (pyStrip line).data = none →
      searchFound (pyStrip line).data = none →
      searchAnalyzing (pyStrip line).data = none →
      processLine job line = bufferLine job (pyStrip line)) := by
  refine ⟨?_, ?_, ?_, ?_⟩ <;> intros <;> unfold processLine <;> simp_all

/-- C7 witness: "Processing 1/4: Analyzing x" matches both the
indexed-progress recognizer and the named-item recognizer; only the
indexed update is applied (`processed_repos` is set to 1, not
incremented; the captured current item is the raw group
"Analyzing x"). -/
theorem read_stderr_first_match_wins_witness :
    searchProcessing (pyStrip "Processing 1/4: Analyzing x").data =
      some (1, 4, some "Analyzing x".data) ∧
    searchAnalyzing (pyStrip "Processing 1/4: Analyzing x").data = some "x".data ∧
    processLine { job_id := "j", status := JobStatus.running } "Processing 1/4: Analyzing x" =
      applyIndexed (bufferLine { job_id := "j", status := JobStatus.running }
        (pyStrip "Processing 1/4: Analyzing x")) 1 4 (some "Analyzing x".data) :=
  ⟨by decide, by decide,
   (read_stderr_first_match_wins { job_id := "j", status := JobStatus.running }
     "Processing 1/4: Analyzing x").1 1 4 (some "Analyzing x".data) (by decide)⟩

/-! ## Claim C5 (amended): the indexed-progress update -/

/-- C5 (amended): when a diagnostic line matches the indexed-progress
recognizer with processed=N, total=M and M > 0, the job's
`processed_repos` is set to N, `total_repos` to M, `current_repo` to
the stripped captured name when present (otherwise left unchanged), and
`progress` to the double-precision truncation `int((N / M) * 100)`
(`pyPct`), which equals `floor(N * 100 / M)` except when the rounded
product falls just below an exact integer.  The `N, M ≤ 2^53`
hypotheses delimit the range on which the double model is exact (far
below the overflow threshold near `2^1024`). -/
theorem processLine_indexed_update (job : AnalysisJob) (line : String)
    (n m : Nat) (g3 : Option (List Char))
    (hmatch : searchProcessing (pyStrip line).data = some (n, m, g3))
    (hm : 0 < m) (hn : n ≤ 2 ^ 53) (hm53 : m ≤ 2 ^ 53) :
    (processLine job line).processed_repos = n ∧
    (processLine job line).total_repos = m ∧
    (processLine job line).current_repo =
      (match g3 with
       | some cs => some (String.mk (stripChars cs))
       | none => job.current_repo) ∧
    (processLine job line).progress = pyPct n m := by
  unfold processLine
  rw [hmatch]
  cases g3 <;> simp [applyIndexed, bufferLine, hm, Nat.pos_iff_ne_zero] <;> split <;> simp_all

/-- C5 witness (the spec's own example): "Processing 3/10: widget-repo"
yields processed=3, total=10, currentItem="widget-repo" and
progress=30. -/
theorem processLine_indexed_update_witness :
    (processLine { job_id := "j", status := JobStatus.running }
        "Processing 3/10: widget-repo").processed_repos = 3 ∧
    (processLine { job_id := "j", status := JobStatus.running }
        "Processing 3/10: widget-repo").total_repos = 10 ∧
    (processLine { job_id := "j", status := JobStatus.running }
        "Processing 3/10: widget-repo").current_repo = some "widget-repo" ∧
    (processLine { job_id := "j", status := JobStatus.running }
        "Processing 3/10: widget-repo").progress = 30 := by
  have h := processLine_indexed_update { job_id := "j", status := JobStatus.running }
    "Processing 3/10: widget-repo" 3 10 (some "widget-repo".data)
    (by decide) (by decide) (by decide) (by decide)
  refine ⟨h.1, h.2.1, ?_, ?_⟩
  · rw [h.2.2.1]
    decide
  · rw [h.2.2.2]
    decide

/-! ## Claim C2 (amended): the bounded-progress step -/

/-- C2 (amended): processing one diagnostic line keeps `progress` in
0..100 provided the resulting `processed_repos` does not exceed the
resulting `total_repos`; the code never clamps, so repeated
"Analyzing" lines that push `processed_repos` past the known total
drive `progress` above 100 (see the counterexample). -/
theorem progress_le_100_step (job : AnalysisJob) (line : String)
    (hpre : job.progress ≤ 100)
    (hle : (processLine job line).processed_repos ≤ (processLine job line).total_repos) :
    (processLine job line).progress ≤ 100 := by
  unfold processLine at hle ⊢
  cases hsp : searchProcessing (pyStrip line).data with
  | some v =>
    obtain ⟨p, t, g3⟩ := v
    simp only [hsp] at hle ⊢
    rw [applyIndexed_processed, applyIndexed_total] at hle
    rw [applyIndexed_progress]
    by_cases ht : 0 < t
    · rw [if_pos ht]
      exact pyPct_le_100 p t ht hle
    · rw [if_neg ht, bufferLine_progress]
      exact hpre
  | none =>
    simp only [hsp] at hle ⊢
    cases hsf : searchFound (pyStrip line).data with
    | some t =>
      simp only [hsf] at hle ⊢
      rw [applyFound_progress, bufferLine_progress]
      exact hpre
    | none =>
      simp only [hsf] at hle ⊢
      cases hsa : searchAnalyzing (pyStrip line).data with
      | some cs =>
        simp only [hsa] at hle ⊢
        rw [applyAnalyzing_processed, applyAnalyzing_total, bufferLine_processed,
          bufferLine_total] at hle
        rw [applyAnalyzing_progress, bufferLine_processed, bufferLine_total,
          bufferLine_progress]
        by_cases ht : 0 < job.total_repos
        · rw [if_pos ht]
          exact pyPct_le_100 _ _ ht hle
        · rw [if_neg ht]
          exact hpre
      | none =>
        simp only [hsa] at hle ⊢
        rw [bufferLine_progress]
        exact hpre

/-- C2 witness: a concrete step satisfying the hypotheses — a fresh
Running job processing "Processing 3/10: x" stays within 0..100. -/
theorem progress_le_100_step_witness :
    ({ job_id := "j", status := JobStatus.running } : AnalysisJob).progress ≤ 100 ∧
    (processLine { job_id := "j", status := JobStatus.running } "Processing 3/10: x").processed_repos ≤
      (processLine { job_id := "j", status := JobStatus.running } "Processing 3/10: x").total_repos ∧
    (processLine { job_id := "j", status := JobStatus.running } "Processing 3/10: x").progress ≤ 100 :=
  ⟨by decide, by decide,
   progress_le_100_step { job_id := "j", status := JobStatus.running } "Processing 3/10: x"
     (by decide) (by decide)⟩

/-! ## Claim C3 (amended): monotone progress without indexed/total
recognizer hits -/

theorem progress_step_mono (s : AnalysisJob) (l : String)
    (hsp : searchProcessing (pyStrip l).data = none)
    (hsf : searchFound (pyStrip l).data = none)
    (hinv : s.progress = 0 ∨
      (0 < s.total_repos ∧ s.progress = pyPct s.processed_repos s.total_repos)) :
    s.progress ≤ (processLine s l).progress ∧
    ((processLine s l).progress = 0 ∨
      (0 < (processLine s l).total_repos ∧
        (processLine s l).progress =
          pyPct (processLine s l).processed_repos (processLine s l).total_repos)) := by
  unfold processLine
  simp only [hsp, hsf]
  cases hsa : searchAnalyzing (pyStrip l).data with
  | none =>
    rw [bufferLine_progress, bufferLine_processed, bufferLine_total]
    exact ⟨le_rfl, hinv⟩
  | some cs =>
    rw [applyAnalyzing_progress, applyAnalyzing_processed, applyAnalyzing_total,
      bufferLine_progress, bufferLine_processed, bufferLine_total]
    by_cases ht : 0 < s.total_repos
    · rw [if_pos ht]
      constructor
      · rcases hinv with h0 | ⟨_, heq⟩
        · omega
        · rw [heq]
          exact pyPct_mono _ _ _ ht (by omega)
      · exact Or.inr ⟨ht, rfl⟩
    · rw [if_neg ht]
      refine ⟨le_rfl, ?_⟩
      rcases hinv with h0 | ⟨ht', _⟩
      · exact Or.inl h0
      · omega

theorem progress_fold_mono (lines : List String) :
    ∀ s : AnalysisJob,
      (∀ l ∈ lines, searchProcessing (pyStrip l).data = none ∧
        searchFound (pyStrip l).data = none) →
      (s.progress = 0 ∨
        (0 < s.total_repos ∧ s.progress = pyPct s.processed_repos s.total_repos)) →
      s.progress ≤ (processLines s lines).progress ∧
      ((processLines s lines).progress = 0 ∨
        (0 < (processLines s lines).total_repos ∧
          (processLines s lines).progress =
            pyPct (processLines s lines).processed_repos (processLines s lines).total_repos)) := by
  induction lines with
  | nil => intro s _ hinv; exact ⟨le_rfl, hinv⟩
  | cons l rest ih =>
    intro s hall hinv
    have hl := hall l (by simp)
    have hstep := progress_step_mono s l hl.1 hl.2 hinv
    have hrest := ih (processLine s l) (fun x hx => hall x (by simp [hx])) hstep.2
    unfold processLines at hrest ⊢
    rw [List.foldl_cons]
    exact ⟨le_trans hstep.1 hrest.1, hrest.2⟩

/-- C3 (amended): while Running, `progress` is monotonically
non-decreasing over any sequence of diagnostic lines none of which
matches the indexed-progress or total-discovery recognizers (only
named-item "Analyzing" lines and non-matching lines), starting from a
job whose progress is still 0.  In general the claim fails: an
indexed-progress line reporting a smaller index, or a total-discovery
line raising the total followed by a named-item line, strictly
decreases `progress` (see the counterexample). -/
theorem progress_monotone_no_indexed (job : AnalysisJob) (lines : List String)
    (hprog : job.progress = 0)
    (hall : ∀ l ∈ lines, searchProcessing (pyStrip l).data = none ∧
      searchFound (pyStrip l).data = none)
    (i j : Nat) (hij : i ≤ j) :
    (processLines job (lines.take i)).progress ≤
      (processLines job (lines.take j)).progress := by
  have hsplit : lines.take j = lines.take i ++ (lines.drop i).take (j - i) := by
    rw [← List.take_add]
    congr 1
    omega
  rw [hsplit]
  unfold processLines
  rw [List.foldl_append]
  have h1 := progress_fold_mono (lines.take i) job
    (fun l hl => hall l (List.mem_of_mem_take hl)) (Or.inl hprog)
  have h2 := progress_fold_mono ((lines.drop i).take (j - i))
    (processLines job (lines.take i))
    (fun l hl => hall l (List.mem_of_mem_drop (List.mem_of_mem_take hl))) h1.2
  unfold processLines at h2
  exact h2.1

/-- C3 witness: a fresh running job with a known total, two lines
("Analyzing a" then unmatched noise), prefixes i=1 ≤ j=2. -/
theorem progress_monotone_no_indexed_witness :
    (processLines (startRun ((create_job [] "j" {}).1) 1)
        (["Analyzing a", "noise"].take 1)).progress ≤
      (processLines (startRun ((create_job [] "j" {}).1) 1)
        (["Analyzing a", "noise"].take 2)).progress :=
  progress_monotone_no_indexed (startRun ((create_job [] "j" {}).1) 1)
    ["Analyzing a", "noise"] (by decide)
    (by
      intro l hl
      fin_cases hl <;> exact ⟨by decide, by decide⟩)
    1 2 (by decide)

/-! ## Claim C9: listing recent jobs -/

/-- C9: for every registry state and limit, `get_recent_jobs` returns
the job records sorted by `started_at` descending (a permutation of the
registry's records), with every record whose `started_at` is unset
placed after all records that have one, truncated to the first `limit`
entries.  The hypothesis rules out a set timestamp equal to
`datetime.min` (tick 0), which the code never produces
(`started_at` is only ever `datetime.now()`): such a record would tie
with unset ones under the code's `started_at or datetime.min` sort
key. -/
theorem get_recent_jobs_spec (jobs : Registry) (limit : Nat)
    (h0 : ∀ p ∈ jobs, (p.2).started_at ≠ some 0) :
    (get_all_jobs jobs).Perm (jobs.map Prod.snd) ∧
    (get_all_jobs jobs).Pairwise (fun a b => jobSortKey b ≤ jobSortKey a) ∧
    (get_recent_jobs jobs limit).Pairwise
      (fun a b => a.started_at = none → b.started_at = none) ∧
    get_recent_jobs jobs limit = (get_all_jobs jobs).take limit := by
  haveI htrans : IsTrans AnalysisJob (fun a b => jobSortKey b ≤ jobSortKey a) :=
    ⟨fun _ _ _ h1 h2 => le_trans h2 h1⟩
  haveI htot : IsTotal AnalysisJob (fun a b => jobSortKey b ≤ jobSortKey a) :=
    ⟨fun a b => le_total _ _⟩
  have hperm : (get_all_jobs jobs).Perm (jobs.map Prod.snd) :=
    List.perm_insertionSort _ _
  have hsorted : (get_all_jobs jobs).Pairwise (fun a b => jobSortKey b ≤ jobSortKey a) :=
    List.sorted_insertionSort _ _
  have hmem : ∀ a ∈ get_all_jobs jobs, a.started_at ≠ some 0 := by
    intro a ha
    have hmap : a ∈ jobs.map Prod.snd := hperm.mem_iff.mp ha
    obtain ⟨p, hp, rfl⟩ := List.mem_map.mp hmap
    exact h0 p hp
  have hnone : (get_all_jobs jobs).Pairwise
      (fun a b => a.started_at = none → b.started_at = none) := by
    apply List.Pairwise.imp_of_mem ?_ hsorted
    intro a b ha hb hle hnone_a
    have hka : jobSortKey a = 0 := by
      unfold jobSortKey
      rw [hnone_a]
      rfl
    have hkb : jobSortKey b = 0 := by omega
    have hb0 := hmem b hb
    unfold jobSortKey at hkb
    cases hsb : b.started_at with
    | none => rfl
    | some v =>
      rw [hsb] at hkb
      simp at hkb
      exact absurd (by rw [hsb, hkb]) hb0
  exact ⟨hperm, hsorted, hnone.sublist (List.take_sublist _ _), rfl⟩

/-- C9 witness: a concrete three-job registry (one record without
`started_at`) listed with limit 2. -/
theorem get_recent_jobs_spec_witness :
    (get_all_jobs [("a", { job_id := "a" }),
        ("b", { job_id := "b", started_at := some 5 }),
        ("c", { job_id := "c", started_at := some 9 })]).Perm
      ([("a", ({ job_id := "a" } : AnalysisJob)),
        ("b", { job_id := "b", started_at := some 5 }),
        ("c", { job_id := "c", started_at := some 9 })].map Prod.snd) ∧
    (get_all_jobs [("a", { job_id := "a" }),
        ("b", { job_id := "b", started_at := some 5 }),
        ("c", { job_id := "c", started_at := some 9 })]).Pairwise
      (fun a b => jobSortKey b ≤ jobSortKey a) ∧
    (get_recent_jobs [("a", { job_id := "a" }),
        ("b", { job_id := "b", started_at := some 5 }),
        ("c", { job_id := "c", started_at := some 9 })] 2).Pairwise
      (fun a b => a.started_at = none → b.started_at = none) ∧
    get_recent_jobs [("a", { job_id := "a" }),
        ("b", { job_id := "b", started_at := some 5 }),
        ("c", { job_id := "c", started_at := some 9 })] 2 =
      (get_all_jobs [("a", { job_id := "a" }),
        ("b", { job_id := "b", started_at := some 5 }),
        ("c", { job_id := "c", started_at := some 9 })]).take 2 :=
  get_recent_jobs_spec
    [("a", { job_id := "a" }),
     ("b", { job_id := "b", started_at := some 5 }),
     ("c", { job_id := "c", started_at := some 9 })] 2 (by decide)

/-! ## Claim C4 (amended): error handling of parse_csv_results -/

theorem processRowsAux_stopsAtError (fields : List String) (bad : List String)
    (rest : List (List String)) (hbad : processRow fields bad = Except.error ()) :
    ∀ (pre : List (List String)) (acc : List ResultRow),
      (∀ cs ∈ pre, ∃ r, processRow fields cs = Except.ok r) →
      processRowsAux fields (pre ++ bad :: rest) acc =
        acc.reverse ++ pre.filterMap (fun cs => (processRow fields cs).toOption) := by
  intro pre
  induction pre with
  | nil =>
    intro acc _
    simp only [List.nil_append, List.filterMap_nil, List.append_nil]
    unfold processRowsAux
    rw [List.map_cons, hbad]
    rfl
  | cons c cs ih =>
    intro acc hall
    obtain ⟨r, hr⟩ := hall c (by simp)
    have hstep : processRowsAux fields ((c :: cs) ++ bad :: rest) acc =
        processRowsAux fields (cs ++ bad :: rest) (r :: acc) := by
      unfold processRowsAux
      rw [List.cons_append, List.map_cons, hr]
      rfl
    rw [hstep, ih (r :: acc) (fun x hx => hall x (by simp [hx]))]
    simp [hr, Except.toOption]

/-- C4 (amended): an unreadable artifact (open raises before any row is
read) yields the empty sequence, and in general an error raised while
processing a row makes `parse_csv_results` return exactly the rows
successfully processed before it — a prefix, empty only when the error
precedes the first row.  Errors are swallowed, never propagated (the
model is total). -/
theorem parse_csv_results_prefix_on_error :
    parse_csv_results none = [] ∧
    ∀ (fields : List String) (pre : List (List String)) (bad : List String)
      (rest : List (List String)),
      (∀ cs ∈ pre, ∃ r, processRow fields cs = Except.ok r) →
      processRow fields bad = Except.error () →
      processRowsAux fields (pre ++ bad :: rest) [] =
        pre.filterMap (fun cs => (processRow fields cs).toOption) :=
  ⟨rfl, fun fields pre bad rest hall hbad => by
    rw [processRowsAux_stopsAtError fields bad rest hbad pre [] hall]
    rfl⟩

/-- C4 witness: the counterexample artifact's row loop — one good row,
then a short row whose `None.lower()` raises — returns exactly the one
processed row. -/
theorem parse_csv_results_prefix_on_error_witness :
    processRow ["Repo_Name", "Is_Empty"] ["a", "True"] =
      Except.ok [("Repo_Name", Value.vStr "a"), ("Is_Empty", Value.vBool true)] ∧
    processRow ["Repo_Name", "Is_Empty"] ["b"] = Except.error () ∧
    processRowsAux ["Repo_Name", "Is_Empty"] ([["a", "True"]] ++ ["b"] :: []) [] =
      [["a", "True"]].filterMap
        (fun cs => (processRow ["Repo_Name", "Is_Empty"] cs).toOption) :=
  ⟨by decide, by decide,
   parse_csv_results_prefix_on_error.2 ["Repo_Name", "Is_Empty"] [["a", "True"]] ["b"] []
     (by
       intro cs hcs
       simp only [List.mem_singleton] at hcs
       subst hcs
       exact ⟨[("Repo_Name", Value.vStr "a"), ("Is_Empty", Value.vBool true)], by decide⟩)
     (by decide)⟩

/-! ## Claim C8: serialization round-trip — decimal integers -/

theorem natOfDigits_append (xs : List Char) (c : Char) :
    natOfDigits (xs ++ [c]) = natOfDigits xs * 10 + (c.toNat - '0'.toNat) := by
  unfold natOfDigits
  rw [List.foldl_append]
  rfl

theorem digitChar_spec (d : Nat) (hd : d < 10) :
    (Char.ofNat ('0'.toNat + d)).toNat = '0'.toNat + d ∧
    isDigitChar (Char.ofNat ('0'.toNat + d)) = true := by
  interval_cases d <;> exact ⟨by decide, by decide⟩

theorem isDigitChar_ne (c : Char) (h : isDigitChar c = true) :
    c ≠ ',' ∧ c ≠ '\n' ∧ c ≠ '\r' ∧ c ≠ '-' ∧ c ≠ '+' ∧
    isPySpace c = false ∧ isQuoteChar c = false := by
  unfold isDigitChar at h
  rw [decide_eq_true_eq] at h
  refine ⟨?_, ?_, ?_, ?_, ?_, ?_, ?_⟩
  · intro he; subst he; simp at h
  · intro he; subst he; simp at h
  · intro he; subst he; simp at h
  · intro he; subst he; simp at h
  · intro he; subst he; simp at h
  · unfold isPySpace
    have h1 : c ≠ ' ' := by intro he; subst he; simp at h
    have h2 : c ≠ '\t' := by intro he; subst he; simp at h
    have h3 : c ≠ '\n' := by intro he; subst he; simp at h
    have h4 : c ≠ '\r' := by intro he; subst he; simp at h
    have h5 : c ≠ '\x0b' := by intro he; subst he; simp at h
    have h6 : c ≠ '\x0c' := by intro he; subst he; simp at h
    simp [h1, h2, h3, h4, h5, h6]
  · unfold isQuoteChar
    have h1 : c ≠ '"' := by intro he; subst he; simp at h
    have h2 : c ≠ '\'' := by intro he; subst he; simp at h
    simp [h1, h2]

theorem natDecimalFuel_spec (fuel : Nat) :
    ∀ n : Nat, 0 < fuel → n < 10 ^ fuel →
      natOfDigits (natDecimalFuel fuel n) = n ∧
      natDecimalFuel fuel n ≠ [] ∧
      ∀ c ∈ natDecimalFuel fuel n, isDigitChar c = true := by
  induction fuel with
  | zero => intro n h; omega
  | succ fuel ih =>
    intro n _ hn
    by_cases h : n < 10
    · simp only [natDecimalFuel, if_pos h]
      obtain ⟨hc1, hc2⟩ := digitChar_spec n h
      refine ⟨?_, by simp, ?_⟩
      · rw [show ([Char.ofNat ('0'.toNat + n)]) = [] ++ [Char.ofNat ('0'.toNat + n)] from rfl,
          natOfDigits_append, hc1]
        unfold natOfDigits
        simp
      · intro c hc
        simp only [List.mem_singleton] at hc
        subst hc
        exact hc2
    · have h10 : 10 ≤ n := by omega
      have hfuel : 0 < fuel := by
        by_contra hf
        push_neg at hf
        interval_cases fuel
        simp at hn
        omega
      have hdiv : n / 10 < 10 ^ fuel := by
        rw [Nat.div_lt_iff_lt_mul (by omega)]
        calc n < 10 ^ (fuel + 1) := hn
          _ = 10 ^ fuel * 10 := by ring
      have hrec := ih (n / 10) hfuel hdiv
      obtain ⟨hcm1, hcm2⟩ := digitChar_spec (n % 10) (Nat.mod_lt _ (by omega))
      simp only [natDecimalFuel, if_neg h]
      refine ⟨?_, by simp, ?_⟩
      · rw [natOfDigits_append, hrec.1, hcm1]
        omega
      · intro c hc
        rcases List.mem_append.mp hc with hc | hc
        · exact hrec.2.2 c hc
        · simp only [List.mem_singleton] at hc
          subst hc
          exact hcm2

theorem natDecimal_spec (n : Nat) :
    natOfDigits (natDecimal n) = n ∧ natDecimal n ≠ [] ∧
    ∀ c ∈ natDecimal n, isDigitChar c = true := by
  apply natDecimalFuel_spec (n + 1) n (by omega)
  calc n < 10 ^ n := Nat.lt_pow_self (by norm_num) n
    _ ≤ 10 ^ (n + 1) := Nat.pow_le_pow_right (by norm_num) (by omega)

theorem intDecimal_chars (n : Int) :
    ∀ c ∈ intDecimal n, isDigitChar c = true ∨ c = '-' := by
  unfold intDecimal
  obtain ⟨-, -, h3⟩ := natDecimal_spec n.natAbs
  split
  · intro c hc
    rcases List.mem_cons.mp hc with hc | hc
    · exact Or.inr hc
    · exact Or.inl (h3 c hc)
  · intro c hc
    exact Or.inl (h3 c hc)

theorem intDecimal_ne_nil (n : Int) : intDecimal n ≠ [] := by
  unfold intDecimal
  obtain ⟨-, h2, -⟩ := natDecimal_spec n.natAbs
  split
  · simp
  · exact h2

theorem dropWhile_of_all_neg {p : Char → Bool} :
    ∀ l : List Char, (∀ c ∈ l, p c = false) → l.dropWhile p = l := by
  intro l hl
  cases l with
  | nil => rfl
  | cons x xs =>
    rw [List.dropWhile_cons, if_neg]
    simp [hl x (by simp)]

theorem stripChars_of_no_space (cs : List Char) (h : ∀ c ∈ cs, isPySpace c = false) :
    stripChars cs = cs := by
  unfold stripChars
  rw [dropWhile_of_all_neg cs h,
    dropWhile_of_all_neg cs.reverse (fun c hc => h c (List.mem_reverse.mp hc)),
    List.reverse_reverse]

theorem pyIntOfBody_cons (c : Char) (rest : List Char) :
    pyIntOfBody (c :: rest) =
      (if c = '-' then
        if rest ≠ [] ∧ rest.all isDigitChar then some (-(natOfDigits rest : Int)) else none
      else if c = '+' then
        if rest ≠ [] ∧ rest.all isDigitChar then some (natOfDigits rest) else none
      else if (c :: rest).all isDigitChar then some (natOfDigits (c :: rest)) else none) := rfl

theorem pyIntOfChars_intDecimal (n : Int) : pyIntOfChars (intDecimal n) = some n := by
  obtain ⟨hv, hne, hdig⟩ := natDecimal_spec n.natAbs
  have hall : (natDecimal n.natAbs).all isDigitChar = true :=
    List.all_eq_true.mpr hdig
  have hstrip : stripChars (intDecimal n) = intDecimal n := by
    apply stripChars_of_no_space
    intro c hc
    rcases intDecimal_chars n c hc with hd | hd
    · exact (isDigitChar_ne c hd).2.2.2.2.2.1
    · subst hd
      decide
  show pyIntOfBody (stripChars (intDecimal n)) = some n
  rw [hstrip]
  by_cases hneg : n < 0
  · rw [show intDecimal n = '-' :: natDecimal n.natAbs by unfold intDecimal; rw [if_pos hneg]]
    rw [pyIntOfBody_cons, if_pos (show ('-' : Char) = '-' from rfl), if_pos ⟨hne, hall⟩]
    have hcast : (natOfDigits (natDecimal n.natAbs) : Int) = (n.natAbs : Int) := by
      exact_mod_cast hv
    rw [hcast]
    congr 1
    omega
  · rw [show intDecimal n = natDecimal n.natAbs by unfold intDecimal; rw [if_neg hneg]]
    cases hd : natDecimal n.natAbs with
    | nil => exact absurd hd hne
    | cons c rest =>
      have hcd : isDigitChar c = true := hdig c (by rw [hd]; simp)
      have hne1 := isDigitChar_ne c hcd
      rw [pyIntOfBody_cons, if_neg hne1.2.2.2.1, if_neg hne1.2.2.2.2.1,
        if_pos (by rw [← hd]; exact hall)]
      have hval : natOfDigits (c :: rest) = n.natAbs := by rw [← hd]; exact hv
      rw [hval]
      congr 1
      omega

/-! ### C8: split/join inverses on the CSV lexical layer -/

theorem splitOnChar_cons (sep c : Char) (rest : List Char) :
    splitOnChar sep (c :: rest) =
      (if c = sep then [] :: splitOnChar sep rest
       else
         match splitOnChar sep rest with
         | p :: ps => (c :: p) :: ps
         | [] => [[c]]) := rfl

theorem splitOnChar_ne_nil (sep : Char) : ∀ cs : List Char, splitOnChar sep cs ≠ [] := by
  intro cs
  cases cs with
  | nil => simp [splitOnChar]
  | cons c rest =>
    rw [splitOnChar_cons]
    split
    · simp
    · split <;> simp

theorem splitOnChar_not_mem (sep : Char) :
    ∀ cs : List Char, sep ∉ cs → splitOnChar sep cs = [cs] := by
  intro cs
  induction cs with
  | nil => intro; rfl
  | cons c rest ih =>
    intro h
    rw [splitOnChar_cons, if_neg (by intro he; exact h (he ▸ List.mem_cons_self c rest)),
      ih (by simp at h; exact h.2)]

theorem splitOnChar_append_sep (sep : Char) :
    ∀ l r : List Char, sep ∉ l →
      splitOnChar sep (l ++ sep :: r) = l :: splitOnChar sep r := by
  intro l
  induction l with
  | nil =>
    intro r _
    simp only [List.nil_append]
    rw [splitOnChar_cons, if_pos rfl]
  | cons c rest ih =>
    intro r h
    rw [List.cons_append, splitOnChar_cons,
      if_neg (by intro he; exact h (he ▸ List.mem_cons_self c rest)),
      ih r (by simp at h; exact h.2)]

theorem splitOnChar_joinWithChar (sep : Char) :
    ∀ parts : List (List Char), parts ≠ [] → (∀ p ∈ parts, sep ∉ p) →
      splitOnChar sep (joinWithChar sep parts) = parts := by
  intro parts
  induction parts with
  | nil => intro h; exact absurd rfl h
  | cons p rest ih =>
    intro _ h
    cases rest with
    | nil => exact splitOnChar_not_mem sep p (h p (by simp))
    | cons q rest' =>
      show splitOnChar sep (p ++ sep :: joinWithChar sep (q :: rest')) = _
      rw [splitOnChar_append_sep sep p _ (h p (by simp)),
        ih (by simp) (fun x hx => h x (by simp [hx]))]

theorem mem_joinWithChar (sep : Char) :
    ∀ (parts : List (List Char)) (c : Char), c ∈ joinWithChar sep parts →
      c = sep ∨ ∃ p ∈ parts, c ∈ p := by
  intro parts
  induction parts with
  | nil => intro c hc; simp [joinWithChar] at hc
  | cons p rest ih =>
    intro c hc
    cases rest with
    | nil => exact Or.inr ⟨p, by simp, hc⟩
    | cons q rest' =>
      rw [show joinWithChar sep (p :: q :: rest') = p ++ sep :: joinWithChar sep (q :: rest')
        from rfl] at hc
      rcases List.mem_append.mp hc with hc | hc
      · exact Or.inr ⟨p, by simp, hc⟩
      · rcases List.mem_cons.mp hc with hc | hc
        · exact Or.inl hc
        · rcases ih c hc with hs | ⟨x, hx, hcx⟩
          · exact Or.inl hs
          · exact Or.inr ⟨x, by simp [hx], hcx⟩

theorem joinWithChar_ne_nil (sep : Char) (p : List Char) (rest : List (List Char))
    (hp : p ≠ []) : joinWithChar sep (p :: rest) ≠ [] := by
  cases rest with
  | nil => exact hp
  | cons q rest' =>
    show p ++ sep :: joinWithChar sep (q :: rest') ≠ []
    simp

theorem dropTrailingCR_append (l : List Char) : dropTrailingCR (l ++ ['\r']) = l := by
  unfold dropTrailingCR
  rw [List.reverse_append]
  simp

theorem csvSplitLines_build :
    ∀ lines : List (List Char),
      (∀ l ∈ lines, ('\n' ∉ l ∧ '\r' ∉ l) ∧ l ≠ []) →
      csvSplitLines (String.mk ((lines.map (fun l => l ++ ['\r', '\n'])).flatten)) = lines := by
  intro lines
  induction lines with
  | nil => intro; rfl
  | cons l rest ih =>
    intro h
    obtain ⟨⟨hn, hr⟩, hne⟩ := h l (by simp)
    unfold csvSplitLines
    show ((splitOnChar '\n'
      ((((l :: rest).map (fun l => l ++ ['\r', '\n'])).flatten))).map dropTrailingCR).filter
        (fun l => ¬ l.isEmpty) = l :: rest
    rw [List.map_cons, List.flatten_cons,
      show (l ++ ['\r', '\n']) ++ ((rest.map (fun l => l ++ ['\r', '\n'])).flatten) =
        (l ++ ['\r']) ++ '\n' :: ((rest.map (fun l => l ++ ['\r', '\n'])).flatten) by
          simp]
    rw [splitOnChar_append_sep '\n' (l ++ ['\r'])
      ((rest.map (fun l => l ++ ['\r', '\n'])).flatten)
      (by
        intro hmem
        rcases List.mem_append.mp hmem with hc | hc
        · exact hn hc
        · simp at hc)]
    rw [List.map_cons, dropTrailingCR_append]
    rw [List.filter_cons_of_pos (by simpa using hne)]
    have := ih (fun x hx => h x (by simp [hx]))
    unfold csvSplitLines at this
    rw [show String.mk ((rest.map (fun l => l ++ ['\r', '\n'])).flatten) =
      String.mk ((rest.map (fun l => l ++ ['\r', '\n'])).flatten) from rfl] at this
    rw [show ((splitOnChar '\n' ((rest.map (fun l => l ++ ['\r', '\n'])).flatten)).map
      dropTrailingCR).filter (fun l => ¬ l.isEmpty) = rest from this]

/-! ### C8: the row dict and the two coercion loops -/

theorem rowGet_cons (k f : String) (v : Value) (rest : ResultRow) :
    rowGet ((k, v) :: rest) f = if k = f then some v else rowGet rest f := by
  by_cases h : k = f <;> simp [rowGet, List.find?_cons, h]

theorem rowKeys_cons (k : String) (v : Value) (rest : ResultRow) :
    rowKeys ((k, v) :: rest) = k :: rowKeys rest := rfl

theorem rowSet_cons (pk f : String) (pv nv : Value) (rest : ResultRow) :
    rowSet ((pk, pv) :: rest) f nv =
      if pk = f then (pk, nv) :: rest else (pk, pv) :: rowSet rest f nv := rfl

theorem rowGet_rowSet_self (row : ResultRow) (f : String) (nv : Value) :
    rowGet (rowSet row f nv) f = (rowGet row f).map (fun _ => nv) := by
  induction row with
  | nil => rfl
  | cons p rest ih =>
    obtain ⟨pk, pv⟩ := p
    rw [rowSet_cons]
    by_cases hpf : pk = f
    · rw [if_pos hpf, rowGet_cons, rowGet_cons, if_pos hpf, if_pos hpf]
      rfl
    · rw [if_neg hpf, rowGet_cons, rowGet_cons, if_neg hpf, if_neg hpf, ih]

theorem rowGet_rowSet_other (row : ResultRow) (f k : String) (nv : Value)
    (hk : k ≠ f) : rowGet (rowSet row f nv) k = rowGet row k := by
  induction row with
  | nil => rfl
  | cons p rest ih =>
    obtain ⟨pk, pv⟩ := p
    rw [rowSet_cons]
    by_cases hpf : pk = f
    · rw [if_pos hpf, rowGet_cons, rowGet_cons,
        if_neg (fun he => hk (he.symm.trans hpf)),
        if_neg (fun he => hk (he.symm.trans hpf))]
    · rw [if_neg hpf, rowGet_cons, rowGet_cons, ih]

theorem rowGet_rowSet (row : ResultRow) (f k : String) (nv : Value) :
    rowGet (rowSet row f nv) k =
      if k = f then (rowGet row f).map (fun _ => nv) else rowGet row k := by
  by_cases h : k = f
  · subst h
    rw [if_pos rfl]
    exact rowGet_rowSet_self row k nv
  · rw [if_neg h]
    exact rowGet_rowSet_other row f k nv h

theorem rowKeys_rowSet (row : ResultRow) (f : String) (nv : Value) :
    rowKeys (rowSet row f nv) = rowKeys row := by
  induction row with
  | nil => rfl
  | cons p rest ih =>
    obtain ⟨pk, pv⟩ := p
    rw [rowSet_cons]
    by_cases hpf : pk = f
    · rw [if_pos hpf, rowKeys_cons, rowKeys_cons]
    · rw [if_neg hpf, rowKeys_cons, rowKeys_cons, ih]

theorem rowGet_coerceNumeric (row : ResultRow) (f k : String) :
    rowGet (coerceNumeric row f) k =
      if k = f then (rowGet row k).map numStep else rowGet row k := by
  by_cases hk : k = f
  case neg =>
    rw [if_neg hk]
    unfold coerceNumeric
    cases rowGet row f with
    | none => rfl
    | some v =>
      dsimp only
      by_cases ht : pyTruthy v = true
      · rw [if_pos ht]
        cases pyIntValue v with
        | some n => exact rowGet_rowSet_other row f k _ hk
        | none => rfl
      · rw [if_neg ht]
  case pos =>
    subst hk
    rw [if_pos rfl]
    unfold coerceNumeric
    cases hf : rowGet row k with
    | none => rw [hf]; rfl
    | some v =>
      dsimp only
      by_cases ht : pyTruthy v = true
      · rw [if_pos ht]
        cases hi : pyIntValue v with
        | some n =>
          dsimp only
          rw [rowGet_rowSet_self, hf]
          show some (Value.vInt n) = some (numStep v)
          unfold numStep
          rw [if_pos ht, hi]
        | none =>
          dsimp only
          rw [hf]
          show some v = some (numStep v)
          unfold numStep
          rw [if_pos ht, hi]
      · rw [if_neg ht, hf]
        show some v = some (numStep v)
        unfold numStep
        rw [if_neg ht]

theorem rowKeys_coerceNumeric (row : ResultRow) (f : String) :
    rowKeys (coerceNumeric row f) = rowKeys row := by
  unfold coerceNumeric
  cases rowGet row f with
  | none => rfl
  | some v =>
    dsimp only
    by_cases ht : pyTruthy v = true
    · rw [if_pos ht]
      cases pyIntValue v with
      | some n => exact rowKeys_rowSet row f (Value.vInt n)
      | none => rfl
    · rw [if_neg ht]

theorem rowGet_numericFold :
    ∀ (fs : List String) (row : ResultRow) (k : String), fs.Nodup →
      rowGet (fs.foldl coerceNumeric row) k =
        if k ∈ fs then (rowGet row k).map numStep else rowGet row k := by
  intro fs
  induction fs with
  | nil => intro row k _; simp
  | cons f fs2 ih =>
    intro row k hnd
    rw [List.foldl_cons, ih (coerceNumeric row f) k (List.Nodup.of_cons hnd)]
    by_cases hk1 : k = f
    · subst hk1
      have hk2 : k ∉ fs2 := (List.nodup_cons.mp hnd).1
      rw [if_neg hk2, if_pos (by simp), rowGet_coerceNumeric, if_pos rfl]
    · by_cases hk2 : k ∈ fs2
      · rw [if_pos hk2, if_pos (by simp [hk2]), rowGet_coerceNumeric, if_neg hk1]
      · rw [if_neg hk2, if_neg (by simp [hk1, hk2]), rowGet_coerceNumeric, if_neg hk1]

theorem rowKeys_numericFold :
    ∀ (fs : List String) (row : ResultRow),
      rowKeys (fs.foldl coerceNumeric row) = rowKeys row := by
  intro fs
  induction fs with
  | nil => intro row; rfl
  | cons f fs2 ih =>
    intro row
    rw [List.foldl_cons, ih (coerceNumeric row f), rowKeys_coerceNumeric]

theorem boolFold_ok :
    ∀ (fs : List String) (row : ResultRow), fs.Nodup →
      (∀ f ∈ fs, ∀ v, rowGet row f = some v → ∃ s, v = Value.vStr s) →
      ∃ row2, fs.foldlM coerceBool row = Except.ok row2 ∧
        (∀ k, rowGet row2 k =
          if k ∈ fs then (rowGet row k).map boolStep else rowGet row k) ∧
        rowKeys row2 = rowKeys row := by
  intro fs
  induction fs with
  | nil =>
    intro row _ _
    exact ⟨row, rfl, fun k => by simp, rfl⟩
  | cons f fs2 ih =>
    intro row hnd hstr
    have hf : ∀ v, rowGet row f = some v → ∃ s, v = Value.vStr s :=
      hstr f (by simp)
    cases hget : rowGet row f with
    | none =>
      have hstep : coerceBool row f = Except.ok row := by
        unfold coerceBool
        rw [hget]
      obtain ⟨row2, h1, h2, h3⟩ := ih row (List.Nodup.of_cons hnd)
        (fun x hx => hstr x (by simp [hx]))
      refine ⟨row2, ?_, ?_, h3⟩
      · rw [List.foldlM_cons, hstep]
        exact h1
      · intro k
        rw [h2 k]
        by_cases hk1 : k = f
        · subst hk1
          have hk2 : k ∉ fs2 := (List.nodup_cons.mp hnd).1
          rw [if_neg hk2, if_pos (by simp), hget]
          rfl
        · by_cases hk2 : k ∈ fs2
          · rw [if_pos hk2, if_pos (by simp [hk2])]
          · rw [if_neg hk2, if_neg (by simp [hk1, hk2])]
    | some v =>
      obtain ⟨s, rfl⟩ := hf v hget
      have hstep : coerceBool row f =
          Except.ok (rowSet row f (Value.vBool (lowerStr s = "true"))) := by
        unfold coerceBool
        rw [hget]
      have hrest : ∀ x ∈ fs2, ∀ v,
          rowGet (rowSet row f (Value.vBool (lowerStr s = "true"))) x = some v →
          ∃ s2, v = Value.vStr s2 := by
        intro x hx v hv
        have hxf : x ≠ f := by
          intro he
          exact (List.nodup_cons.mp hnd).1 (he ▸ hx)
        rw [rowGet_rowSet_other row f x _ hxf] at hv
        exact hstr x (by simp [hx]) v hv
      obtain ⟨row2, h1, h2, h3⟩ := ih (rowSet row f (Value.vBool (lowerStr s = "true")))
        (List.Nodup.of_cons hnd) hrest
      refine ⟨row2, ?_, ?_, by rw [h3, rowKeys_rowSet]⟩
      · rw [List.foldlM_cons, hstep]
        exact h1
      · intro k
        rw [h2 k]
        by_cases hk1 : k = f
        · subst hk1
          have hk2 : k ∉ fs2 := (List.nodup_cons.mp hnd).1
          rw [if_neg hk2, if_pos (by simp), rowGet_rowSet_self, hget]
          rfl
        · by_cases hk2 : k ∈ fs2
          · rw [if_pos hk2, if_pos (by simp [hk2]), rowGet_rowSet_other row f k _ hk1]
          · rw [if_neg hk2, if_neg (by simp [hk1, hk2]), rowGet_rowSet_other row f k _ hk1]

theorem rowGet_eq_none_of_not_mem (row : ResultRow) (k : String)
    (h : k ∉ rowKeys row) : rowGet row k = none := by
  induction row with
  | nil => rfl
  | cons p rest ih =>
    obtain ⟨pk, pv⟩ := p
    rw [rowKeys_cons] at h
    rw [rowGet_cons, if_neg (fun he => h (List.mem_cons.mpr (Or.inl he.symm)))]
    exact ih (fun hm => h (List.mem_cons_of_mem pk hm))

theorem rowExt :
    ∀ l1 l2 : ResultRow, rowKeys l1 = rowKeys l2 → (rowKeys l1).Nodup →
      (∀ k, rowGet l1 k = rowGet l2 k) → l1 = l2 := by
  intro l1
  induction l1 with
  | nil =>
    intro l2 hk _ _
    cases l2 with
    | nil => rfl
    | cons p rest =>
      obtain ⟨pk, pv⟩ := p
      rw [rowKeys_cons] at hk
      exact absurd hk (by simp [rowKeys])
  | cons p rest ih =>
    intro l2 hk hnd hget
    obtain ⟨pk, pv⟩ := p
    cases l2 with
    | nil =>
      rw [rowKeys_cons] at hk
      exact absurd hk (by simp [rowKeys])
    | cons q rest2 =>
      obtain ⟨qk, qv⟩ := q
      rw [rowKeys_cons, rowKeys_cons] at hk
      have hkeq : pk = qk := (List.cons.injEq _ _ _ _ ▸ hk).1
      subst hkeq
      have htl : rowKeys rest = rowKeys rest2 := (List.cons.injEq _ _ _ _ ▸ hk).2
      rw [rowKeys_cons] at hnd
      obtain ⟨hnm, hnd2⟩ := List.nodup_cons.mp hnd
      have hv := hget pk
      rw [rowGet_cons, rowGet_cons, if_pos rfl, if_pos rfl] at hv
      have hveq : pv = qv := by injection hv
      subst hveq
      congr 1
      apply ih rest2 htl hnd2
      intro k
      by_cases hkp : k = pk
      · subst hkp
        rw [rowGet_eq_none_of_not_mem rest k hnm,
          rowGet_eq_none_of_not_mem rest2 k (htl ▸ hnm)]
      · have hk2 := hget k
        rw [rowGet_cons, rowGet_cons, if_neg (fun he => hkp he.symm),
          if_neg (fun he => hkp he.symm)] at hk2
        exact hk2

/-! ### C8: per-value round trips, field-table facts, serialization -/

theorem stringMk_data : ∀ s : String, String.mk s.data = s := fun ⟨_⟩ => rfl

theorem isIntCell_spec (o : Option Value) (h : isIntCell o = true) :
    ∃ n, o = some (Value.vInt n) := by
  cases o with
  | none => simp [isIntCell] at h
  | some v =>
    cases v with
    | vStr s => simp [isIntCell] at h
    | vInt n => exact ⟨n, rfl⟩
    | vBool b => simp [isIntCell] at h
    | vNone => simp [isIntCell] at h

theorem isBoolCell_spec (o : Option Value) (h : isBoolCell o = true) :
    ∃ b, o = some (Value.vBool b) := by
  cases o with
  | none => simp [isBoolCell] at h
  | some v =>
    cases v with
    | vStr s => simp [isBoolCell] at h
    | vInt n => simp [isBoolCell] at h
    | vBool b => exact ⟨b, rfl⟩
    | vNone => simp [isBoolCell] at h

theorem numStep_int_render (n : Int) :
    numStep (Value.vStr (String.mk (intDecimal n))) = Value.vInt n := by
  have hne : String.mk (intDecimal n) ≠ "" := by
    intro he
    exact intDecimal_ne_nil n (congrArg String.data he)
  unfold numStep
  rw [if_pos (show pyTruthy (Value.vStr (String.mk (intDecimal n))) = true from
        decide_eq_true hne),
    show pyIntValue (Value.vStr (String.mk (intDecimal n))) = some n from
      pyIntOfChars_intDecimal n]

theorem boolStep_render (b : Bool) :
    boolStep (Value.vStr (if b then "True" else "False")) = Value.vBool b := by
  cases b <;> decide

theorem numeric_fields_nodup : numeric_fields.Nodup := by decide

theorem bool_fields_nodup : bool_fields.Nodup := by decide

theorem bool_fields_not_numeric : ∀ k ∈ bool_fields, k ∉ numeric_fields := by decide

theorem numeric_fields_safe : ∀ k ∈ numeric_fields,
    k.data ≠ [] ∧ ',' ∉ k.data ∧ '\n' ∉ k.data ∧ '\r' ∉ k.data := by decide

theorem bool_fields_safe : ∀ k ∈ bool_fields,
    k.data ≠ [] ∧ ',' ∉ k.data ∧ '\n' ∉ k.data ∧ '\r' ∉ k.data := by decide

theorem intDecimal_safe (n : Int) :
    intDecimal n ≠ [] ∧ ',' ∉ intDecimal n ∧ '\n' ∉ intDecimal n ∧ '\r' ∉ intDecimal n := by
  refine ⟨intDecimal_ne_nil n, ?_, ?_, ?_⟩ <;> intro hc
  · rcases intDecimal_chars n ',' hc with hd | hd
    · exact absurd hd (by decide)
    · exact absurd hd (by decide)
  · rcases intDecimal_chars n '\n' hc with hd | hd
    · exact absurd hd (by decide)
    · exact absurd hd (by decide)
  · rcases intDecimal_chars n '\r' hc with hd | hd
    · exact absurd hd (by decide)
    · exact absurd hd (by decide)

theorem typedCell_safe (o : Option Value)
    (h : isIntCell o = true ∨ isBoolCell o = true) :
    (csvCell o).data ≠ [] ∧ ',' ∉ (csvCell o).data ∧
      '\n' ∉ (csvCell o).data ∧ '\r' ∉ (csvCell o).data := by
  rcases h with h | h
  · obtain ⟨n, rfl⟩ := isIntCell_spec o h
    show intDecimal n ≠ [] ∧ ',' ∉ intDecimal n ∧ '\n' ∉ intDecimal n ∧ '\r' ∉ intDecimal n
    exact intDecimal_safe n
  · obtain ⟨b, rfl⟩ := isBoolCell_spec o h
    cases b <;> exact ⟨by decide, by decide, by decide, by decide⟩

theorem zipRow_map (g : String → String) :
    ∀ ks : List String, zipRow ks (ks.map g) = ks.map (fun k => (k, Value.vStr (g k))) := by
  intro ks
  induction ks with
  | nil => rfl
  | cons f fs ih =>
    rw [List.map_cons, List.map_cons,
      show zipRow (f :: fs) (g f :: fs.map g) = (f, Value.vStr (g f)) :: zipRow fs (fs.map g)
        from rfl, ih]

theorem rowKeys_mapPairs (g : String → Value) (ks : List String) :
    rowKeys (ks.map (fun k => (k, g k))) = ks := by
  unfold rowKeys
  rw [List.map_map]
  exact (List.map_congr_left (fun k _ => rfl)).trans (List.map_id ks)

theorem rowGet_mapPairs (g : String → Value) :
    ∀ (ks : List String) (k : String), k ∈ ks →
      rowGet (ks.map (fun x => (x, g x))) k = some (g k) := by
  intro ks
  induction ks with
  | nil => intro k hk; simp at hk
  | cons f fs ih =>
    intro k hk
    rw [List.map_cons, rowGet_cons]
    by_cases hf : f = k
    · subst hf
      rw [if_pos rfl]
    · rw [if_neg hf]
      refine ih k ?_
      rcases List.mem_cons.mp hk with h | h
      · exact absurd h.symm hf
      · exact h

theorem scanRows_all_ok : ∀ (res acc : List ResultRow),
    scanRows (res.map Except.ok) acc = acc.reverse ++ res := by
  intro res
  induction res with
  | nil => intro acc; simp [scanRows]
  | cons r rest ih =>
    intro acc
    rw [List.map_cons,
      show scanRows (Except.ok r :: rest.map Except.ok) acc =
        scanRows (rest.map Except.ok) (r :: acc) from rfl,
      ih (r :: acc)]
    simp

set_option maxHeartbeats 1600000 in
theorem processRow_roundtrip (r : ResultRow)
    (hnd : (rowKeys r).Nodup)
    (htyped : ∀ k ∈ rowKeys r,
      (k ∈ numeric_fields ∧ isIntCell (rowGet r k) = true) ∨
      (k ∈ bool_fields ∧ isBoolCell (rowGet r k) = true)) :
    processRow (rowKeys r) ((rowKeys r).map (fun f => csvCell (rowGet r f))) =
      Except.ok r := by
  show bool_fields.foldlM coerceBool
      (numeric_fields.foldl coerceNumeric
        (zipRow (rowKeys r) ((rowKeys r).map (fun f => csvCell (rowGet r f))))) =
    Except.ok r
  conv_lhs => rw [zipRow_map (fun f => csvCell (rowGet r f)) (rowKeys r)]
  set row0 := (rowKeys r).map (fun k => (k, Value.vStr (csvCell (rowGet r k)))) with hrow0
  have hkeys0 : rowKeys row0 = rowKeys r := rowKeys_mapPairs _ _
  have hget0 : ∀ k ∈ rowKeys r, rowGet row0 k = some (Value.vStr (csvCell (rowGet r k))) :=
    fun k hk => rowGet_mapPairs _ _ k hk
  set row1 := numeric_fields.foldl coerceNumeric row0 with hrow1
  have hkeys1 : rowKeys row1 = rowKeys r := by
    rw [hrow1, rowKeys_numericFold, hkeys0]
  have hget1 : ∀ k, rowGet row1 k =
      if k ∈ numeric_fields then (rowGet row0 k).map numStep else rowGet row0 k :=
    fun k => rowGet_numericFold numeric_fields row0 k numeric_fields_nodup
  have hstr : ∀ f ∈ bool_fields, ∀ v, rowGet row1 f = some v → ∃ s, v = Value.vStr s := by
    intro f hf v hv
    rw [hget1 f, if_neg (bool_fields_not_numeric f hf)] at hv
    by_cases hmem : f ∈ rowKeys r
    · rw [hget0 f hmem] at hv
      injection hv with hv2
      exact ⟨_, hv2.symm⟩
    · rw [rowGet_eq_none_of_not_mem row0 f (by rw [hkeys0]; exact hmem)] at hv
      exact absurd hv (by simp)
  obtain ⟨row2, h1, h2, h3⟩ := boolFold_ok bool_fields row1 bool_fields_nodup hstr
  rw [h1]
  refine congrArg Except.ok
    (rowExt row2 r (by rw [h3, hkeys1]) (by rw [h3, hkeys1]; exact hnd) ?_)
  intro k
  rw [h2 k]
  by_cases hk : k ∈ rowKeys r
  · rcases htyped k hk with ⟨hnum, hic⟩ | ⟨hbf, hbc⟩
    · obtain ⟨n, hn⟩ := isIntCell_spec _ hic
      have hnb : k ∉ bool_fields := fun hb => bool_fields_not_numeric k hb hnum
      rw [if_neg hnb, hget1 k, if_pos hnum, hget0 k hk, hn]
      show some (numStep (Value.vStr (String.mk (intDecimal n)))) = some (Value.vInt n)
      rw [numStep_int_render]
    · obtain ⟨b, hb2⟩ := isBoolCell_spec _ hbc
      rw [if_pos hbf, hget1 k, if_neg (bool_fields_not_numeric k hbf), hget0 k hk, hb2]
      show some (boolStep (Value.vStr (if b then "True" else "False"))) = some (Value.vBool b)
      rw [boolStep_render]
  · have h1n : rowGet row1 k = none :=
      rowGet_eq_none_of_not_mem row1 k (by rw [hkeys1]; exact hk)
    rw [h1n, rowGet_eq_none_of_not_mem r k hk]
    split <;> rfl

theorem results_to_csv_eq (r0 : ResultRow) (rs : List ResultRow) :
    results_to_csv (r0 :: rs) =
      String.mk ((((joinWithChar ',' ((rowKeys r0).map String.data)) ::
        (r0 :: rs).map (fun r =>
          joinWithChar ',' ((rowKeys r0).map (fun f => (csvCell (rowGet r f)).data)))).map
        (fun l => l ++ ['\r', '\n'])).flatten) := by
  show String.mk
      ((joinWithChar ',' ((r0.map Prod.fst).map String.data) ++ ['\r', '\n']) ++
        ((r0 :: rs).map (fun r =>
          joinWithChar ',' ((r0.map Prod.fst).map (fun f => (csvCell (rowGet r f)).data)) ++
            ['\r', '\n'])).flatten) = _
  conv_rhs => rw [List.map_cons, List.flatten_cons, List.map_map]
  rfl

theorem parse_csv_results_cons (content : String) (header : List Char)
    (dataLines : List (List Char)) (h : csvSplitLines content = header :: dataLines) :
    parse_csv_results (some content) =
      processRowsAux ((splitOnChar ',' header).map String.mk)
        (dataLines.map (fun l => (splitOnChar ',' l).map String.mk)) [] := by
  unfold parse_csv_results
  dsimp only
  rw [h]

/-- C8: `results_to_csv` of the empty record list is the empty string, and
on the typed subset the pair serializes/parses as a round trip: for any
non-empty uniform list of records whose keys are distinct and each hold a
coerced `vInt` under a recognized numeric field or a coerced `vBool` under
a recognized boolean field, `parse_csv_results` of `results_to_csv`
returns exactly the original records. -/
theorem results_to_csv_roundtrip :
    results_to_csv [] = "" ∧
    ∀ (r0 : ResultRow) (rs : List ResultRow),
      (rowKeys r0).Nodup → rowKeys r0 ≠ [] →
      (∀ r ∈ r0 :: rs, rowKeys r = rowKeys r0) →
      (∀ r ∈ r0 :: rs, ∀ k ∈ rowKeys r0,
        (k ∈ numeric_fields ∧ isIntCell (rowGet r k) = true) ∨
        (k ∈ bool_fields ∧ isBoolCell (rowGet r k) = true)) →
      parse_csv_results (some (results_to_csv (r0 :: rs))) = r0 :: rs := by
  refine ⟨rfl, ?_⟩
  intro r0 rs hnd hne huni htyped
  have fieldSafe : ∀ k ∈ rowKeys r0,
      k.data ≠ [] ∧ ',' ∉ k.data ∧ '\n' ∉ k.data ∧ '\r' ∉ k.data := by
    intro k hk
    rcases htyped r0 (List.mem_cons_self r0 rs) k hk with ⟨hn, -⟩ | ⟨hb, -⟩
    · exact numeric_fields_safe k hn
    · exact bool_fields_safe k hb
  have cellSafe : ∀ r ∈ r0 :: rs, ∀ k ∈ rowKeys r0,
      (csvCell (rowGet r k)).data ≠ [] ∧ ',' ∉ (csvCell (rowGet r k)).data ∧
        '\n' ∉ (csvCell (rowGet r k)).data ∧ '\r' ∉ (csvCell (rowGet r k)).data := by
    intro r hr k hk
    rcases htyped r hr k hk with ⟨-, hi⟩ | ⟨-, hb⟩
    · exact typedCell_safe _ (Or.inl hi)
    · exact typedCell_safe _ (Or.inr hb)
  have hsafe : ∀ l ∈ (joinWithChar ',' ((rowKeys r0).map String.data) ::
        (r0 :: rs).map (fun r =>
          joinWithChar ',' ((rowKeys r0).map (fun f => (csvCell (rowGet r f)).data)))),
      (('\n' ∉ l ∧ '\r' ∉ l) ∧ l ≠ []) := by
    intro l hl
    rcases List.mem_cons.mp hl with rfl | hl
    · refine ⟨⟨?_, ?_⟩, ?_⟩
      · intro hm
        rcases mem_joinWithChar ',' _ '\n' hm with he | ⟨p, hp, hcp⟩
        · exact absurd he (by decide)
        · obtain ⟨k, hk, rfl⟩ := List.mem_map.mp hp
          exact (fieldSafe k hk).2.2.1 hcp
      · intro hm
        rcases mem_joinWithChar ',' _ '\r' hm with he | ⟨p, hp, hcp⟩
        · exact absurd he (by decide)
        · obtain ⟨k, hk, rfl⟩ := List.mem_map.mp hp
          exact (fieldSafe k hk).2.2.2 hcp
      · cases hks : rowKeys r0 with
        | nil => exact absurd hks hne
        | cons k0 ks2 =>
          rw [List.map_cons]
          exact joinWithChar_ne_nil ',' k0.data (ks2.map String.data)
            ((fieldSafe k0 (by rw [hks]; exact List.mem_cons_self k0 ks2)).1)
    · obtain ⟨r, hr, rfl⟩ := List.mem_map.mp hl
      refine ⟨⟨?_, ?_⟩, ?_⟩
      · intro hm
        rcases mem_joinWithChar ',' _ '\n' hm with he | ⟨p, hp, hcp⟩
        · exact absurd he (by decide)
        · obtain ⟨k, hk, rfl⟩ := List.mem_map.mp hp
          exact (cellSafe r hr k hk).2.2.1 hcp
      · intro hm
        rcases mem_joinWithChar ',' _ '\r' hm with he | ⟨p, hp, hcp⟩
        · exact absurd he (by decide)
        · obtain ⟨k, hk, rfl⟩ := List.mem_map.mp hp
          exact (cellSafe r hr k hk).2.2.2 hcp
      · cases hks : rowKeys r0 with
        | nil => exact absurd hks hne
        | cons k0 ks2 =>
          rw [List.map_cons]
          exact joinWithChar_ne_nil ',' (csvCell (rowGet r k0)).data _
            ((cellSafe r hr k0 (by rw [hks]; exact List.mem_cons_self k0 ks2)).1)
  have hcontent : csvSplitLines (results_to_csv (r0 :: rs)) =
      joinWithChar ',' ((rowKeys r0).map String.data) ::
        (r0 :: rs).map (fun r =>
          joinWithChar ',' ((rowKeys r0).map (fun f => (csvCell (rowGet r f)).data))) := by
    rw [results_to_csv_eq r0 rs]
    exact csvSplitLines_build _ hsafe
  conv_lhs => rw [parse_csv_results_cons (results_to_csv (r0 :: rs)) _ _ hcontent]
  have hfields : (splitOnChar ','
      (joinWithChar ',' ((rowKeys r0).map String.data))).map String.mk = rowKeys r0 := by
    rw [splitOnChar_joinWithChar ',' ((rowKeys r0).map String.data)
      (fun h => hne (by simpa using h))
      (by
        intro p hp
        obtain ⟨k, hk, rfl⟩ := List.mem_map.mp hp
        exact (fieldSafe k hk).2.1),
      List.map_map]
    exact (List.map_congr_left (fun k _ => stringMk_data k)).trans (List.map_id (rowKeys r0))
  have hrows : (((r0 :: rs).map (fun r =>
        joinWithChar ',' ((rowKeys r0).map (fun f => (csvCell (rowGet r f)).data)))).map
        (fun l => (splitOnChar ',' l).map String.mk)) =
      (r0 :: rs).map (fun r => (rowKeys r0).map (fun f => csvCell (rowGet r f))) := by
    rw [List.map_map]
    apply List.map_congr_left
    intro r hr
    show ((splitOnChar ','
        (joinWithChar ',' ((rowKeys r0).map (fun f => (csvCell (rowGet r f)).data)))).map
          String.mk) =
      (rowKeys r0).map (fun f => csvCell (rowGet r f))
    rw [splitOnChar_joinWithChar ','
      ((rowKeys r0).map (fun f => (csvCell (rowGet r f)).data))
      (fun h => hne (by simpa using h))
      (by
        intro p hp
        obtain ⟨k, hk, rfl⟩ := List.mem_map.mp hp
        exact (cellSafe r hr k hk).2.1),
      List.map_map]
    exact List.map_congr_left (fun f _ => stringMk_data _)
  conv_lhs => rw [hfields, hrows]
  show scanRows (((r0 :: rs).map
      (fun r => (rowKeys r0).map (fun f => csvCell (rowGet r f)))).map
        (processRow (rowKeys r0))) [] = r0 :: rs
  conv_lhs => rw [List.map_map]
  have hpr : ∀ r ∈ r0 :: rs,
      (processRow (rowKeys r0) ∘ fun r => (rowKeys r0).map (fun f => csvCell (rowGet r f))) r =
        Except.ok r := by
    intro r hr
    have hkr : rowKeys r = rowKeys r0 := huni r hr
    show processRow (rowKeys r0) ((rowKeys r0).map (fun f => csvCell (rowGet r f))) =
      Except.ok r
    rw [← hkr]
    exact processRow_roundtrip r (by rw [hkr]; exact hnd) (by rw [hkr]; exact htyped r hr)
  conv_lhs => rw [List.map_congr_left hpr, scanRows_all_ok]
  rfl

theorem results_to_csv_roundtrip_witness :
    parse_csv_results (some (results_to_csv
      [[("Is_Empty", Value.vBool false), ("Record_Count", Value.vInt 5)],
       [("Is_Empty", Value.vBool true), ("Record_Count", Value.vInt 0)]])) =
      [[("Is_Empty", Value.vBool false), ("Record_Count", Value.vInt 5)],
       [("Is_Empty", Value.vBool true), ("Record_Count", Value.vInt 0)]] :=
  results_to_csv_roundtrip.2
    [("Is_Empty", Value.vBool false), ("Record_Count", Value.vInt 5)]
    [[("Is_Empty", Value.vBool true), ("Record_Count", Value.vInt 0)]]
    (by decide) (by decide) (by decide) (by decide)

end GhRepoStats
